import Mathlib

/-!
Verification of the marshmallow command-dispatch framework (packages/mally).

The repository ships two variants of the `MallyHandler` execution engine in
`src/handler.ts`:

- the adapter variant (`MallyHandler.execute` around lines 189-237), which has
  a middleware chain built right to left and wraps the chain invocation in a
  try/catch; it is embedded here as `execute1`, `runChain`, `handle1`,
  `parseMessage1`;
- the decorator/guard variant (`MallyHandler.execute` around lines 569-625),
  which evaluates `@Guard` classes, supports an `onCooldown` notifier and a
  mention prefix in `parseMessage`; it is embedded here as `execute2` and
  `parseMessage2`.

JavaScript `Map`s are embedded as association lists (`alistFind?`, `alistSet`,
`alistHas`), `Date.now()` as an explicit `now : Nat` argument, exceptions as
the `DispatchResult.raised` outcome, and the observable effects of one dispatch
(replies on the reply channel, handler invocations, diagnostics, the command
body running) as a trace of `Event`s.
-/

namespace Mally

/-! ## Association lists embedding JavaScript Map -/

/-- Lookup in an association list; embeds JavaScript `Map.get` (keys unique). -/
def alistFind? {α : Type} : List (String × α) → String → Option α
  | [], _ => none
  | (k', v) :: rest, k => if k' = k then some v else alistFind? rest k

/-- Key-presence test; embeds JavaScript `Map.has`. -/
def alistHas {α : Type} (m : List (String × α)) (k : String) : Bool :=
  (alistFind? m k).isSome

/-- Insert or replace a binding; embeds JavaScript `Map.set`. -/
def alistSet {α : Type} : List (String × α) → String → α → List (String × α)
  | [], k, v => [(k, v)]
  | (k', v') :: rest, k, v =>
    if k' = k then (k, v) :: rest else (k', v') :: alistSet rest k v

/-- Keys of an association list, in order. -/
def keysOf {α : Type} (m : List (String × α)) : List String :=
  m.map Prod.fst

/-! ## Strings: the handful of JavaScript string operations the code uses -/

/-- ASCII lower-casing; embeds `String.prototype.toLowerCase` on the ASCII
names and aliases the framework handles. -/
def strToLower (s : String) : String :=
  String.mk (s.data.map Char.toLower)

/-- Whitespace as matched by the `\s` classes the code relies on, restricted
to the ASCII whitespace appearing in chat messages. -/
def isWs (c : Char) : Bool :=
  c = ' ' || c = '\t' || c = '\n' || c = '\r'

/-- Embeds `String.prototype.trim`: drop whitespace from both ends. -/
def jsTrim (s : String) : String :=
  String.mk (((s.data.dropWhile isWs).reverse.dropWhile isWs).reverse)

/-- Embeds `String.prototype.slice(n)` (drop the first n characters). -/
def strDropChars (s : String) (n : Nat) : String :=
  String.mk (s.data.drop n)

/-- Maximal runs of non-whitespace characters; helper for `wsSplit`. -/
def wsTokensAux (acc : List Char) : List Char → List (List Char)
  | [] => if acc.isEmpty then [] else [acc.reverse]
  | c :: cs =>
    if isWs c then
      if acc.isEmpty then wsTokensAux [] cs else acc.reverse :: wsTokensAux [] cs
    else
      wsTokensAux (c :: acc) cs

/-- Embeds `str.split(/\s+/)`. Every call site passes a trimmed string, for
which the JavaScript split is exactly the list of maximal non-whitespace runs,
and `[""]` for the empty string. -/
def wsSplit (s : String) : List String :=
  if s.data.isEmpty then [""]
  else (wsTokensAux [] s.data).map String.mk

/-! ## Command metadata (types.ts `CommandMetadata`) -/

/-- Embeds the resolved `CommandMetadata` record of `types.ts`. `cooldown` is
in milliseconds and non-negative (the data model of the framework). -/
structure CommandMetadata where
  name : String
  description : String
  aliases : List String
  permissions : List String
  category : String
  cooldown : Nat
  nsfw : Bool
  ownerOnly : Bool
deriving DecidableEq

/-! ## Abstract command and guard behaviour

A command body, a guard, and the optional handlers are arbitrary user code at
the other side of the command-module boundary; the dispatch engine only
observes whether each completes, returns false, or raises, and whether the
optional handlers are defined. That observable surface is what is embedded. -/

/-- What a guard run does when invoked. -/
inductive GuardRunBehavior where
  | returnsTrue
  | returnsFalse
  | raises (msg : String)
deriving DecidableEq

/-- One guard class attached via `@Guard` (decorators.ts): the engine checks
`typeof guardInstance.run === 'function'` (`hasRun`), runs it, and on failure
checks `typeof guardInstance.guardFail === 'function'` (`hasGuardFail`). -/
structure GuardSpec where
  hasRun : Bool
  runBehavior : GuardRunBehavior
  hasGuardFail : Bool
deriving DecidableEq

/-- What `instance.run(ctx)` does when invoked. -/
inductive BodyBehavior where
  | succeeds
  | raises (msg : String)
deriving DecidableEq

/-- One command instance as the engine observes it: its body behaviour, the
presence of the optional `onError` and `onCooldown` handlers, and the guard
classes recorded for its constructor. -/
structure CommandInstance where
  body : BodyBehavior
  hasOnError : Bool
  hasOnCooldown : Bool
  guards : List GuardSpec
deriving DecidableEq

/-! ## Registry (registry.ts `CommandRegistry`) -/

/-- Embeds the `RegisteredCommand` entry stored in the registry. -/
structure RegEntry where
  cmd : CommandInstance
  metadata : CommandMetadata
deriving DecidableEq

/-- Embeds `CommandRegistry`: a commands map keyed by lowercase name and an
alias map from lowercase alias to canonical lowercase name. -/
structure Registry where
  commands : List (String × RegEntry)
  aliases : List (String × String)
deriving DecidableEq

/-- The registry right after construction or `clear()`. -/
def emptyRegistry : Registry := ⟨[], []⟩

/-- The alias loop of `CommandRegistry.register`: for each alias, insert its
lowercase form mapped to the canonical name unless it already exists as an
alias key or a command key; a colliding alias is skipped with a diagnostic and
the loop continues. -/
def registerAliases (cmds : List (String × RegEntry)) (canonical : String)
    (acc : List (String × String)) (as : List String) : List (String × String) :=
  as.foldl (fun acc al =>
    let aL := strToLower al
    if alistHas acc aL || alistHas cmds aL then acc else alistSet acc aL canonical) acc

/-- Embeds `CommandRegistry.register` (registry.ts lines 117-135): a duplicate
lowercased name leaves the registry untouched; otherwise the entry is inserted
and the aliases are processed by `registerAliases`. -/
def register (r : Registry) (inst : CommandInstance) (md : CommandMetadata) : Registry :=
  let name := strToLower md.name
  if alistHas r.commands name then r
  else
    let commands := alistSet r.commands name ⟨inst, md⟩
    ⟨commands, registerAliases commands name r.aliases md.aliases⟩

/-- Embeds `CommandRegistry.get` (registry.ts lines 140-144): lower-case the
query, resolve through the alias map if possible, then look up the commands
map. -/
def regGet (r : Registry) (name : String) : Option RegEntry :=
  let lowerName := strToLower name
  let resolvedName := (alistFind? r.aliases lowerName).getD lowerName
  alistFind? r.commands resolvedName

/-- Embeds `CommandRegistry.size`. -/
def regSize (r : Registry) : Nat := r.commands.length

/-- A registry mutation observable through the public surface: `register` or
`clear` (reload is clear followed by registrations). -/
inductive RegOp where
  | reg (inst : CommandInstance) (md : CommandMetadata)
  | clear

/-- Apply one registry operation. -/
def applyOp (r : Registry) : RegOp → Registry
  | .reg inst md => register r inst md
  | .clear => emptyRegistry

/-- The registry reached from construction by a sequence of operations. -/
def applyOps (ops : List RegOp) : Registry :=
  ops.foldl applyOp emptyRegistry

/-! ## Cooldown tracker (handler.ts lines 691-726) -/

/-- The `cooldowns` field: command name to (user id to absolute timestamp). -/
def CooldownMap : Type := List (String × List (String × Nat))

instance : DecidableEq CooldownMap := by
  unfold CooldownMap
  infer_instance

/-- The stored stamp for a (command, user) pair, if any. -/
def stampOf (cds : CooldownMap) (cmdName userId : String) : Option Nat :=
  match alistFind? cds cmdName with
  | none => none
  | some sub => alistFind? sub userId

/-- Embeds `MallyHandler.checkCooldown`: true when no cooldown is configured,
no sub-map or stamp exists, the stamp is the falsy 0, or `now` has reached the
stamp. -/
def checkCooldown (cds : CooldownMap) (userId : String) (md : CommandMetadata)
    (now : Nat) : Bool :=
  if md.cooldown ≤ 0 then true
  else
    match alistFind? cds md.name with
    | none => true
    | some sub =>
      match alistFind? sub userId with
      | none => true
      | some t => if t = 0 then true else decide (now ≥ t)

/-- Embeds `MallyHandler.getRemainingCooldown`: `Math.max(0, stamp - now)` in
milliseconds, 0 when no entry exists (or the stamp is the falsy 0). -/
def getRemainingCooldown (cds : CooldownMap) (userId : String)
    (md : CommandMetadata) (now : Nat) : Int :=
  match alistFind? cds md.name with
  | none => 0
  | some sub =>
    match alistFind? sub userId with
    | none => 0
    | some t => if t = 0 then 0 else max 0 ((t : Int) - (now : Int))

/-- Embeds `MallyHandler.setCooldown`: create the per-command sub-map if it is
missing, then write `now + cooldown` for the user. -/
def setCooldown (cds : CooldownMap) (userId : String) (md : CommandMetadata)
    (now : Nat) : CooldownMap :=
  let cds' := if alistHas cds md.name then cds else alistSet cds md.name []
  match alistFind? cds' md.name with
  | none => cds'
  | some sub => alistSet cds' md.name (alistSet sub userId (now + md.cooldown))

/-! ## Association-list lemmas -/

theorem alistFind?_set_self {α : Type} (m : List (String × α)) (k : String) (v : α) :
    alistFind? (alistSet m k v) k = some v := by
  induction m with
  | nil => simp [alistSet, alistFind?]
  | cons hd tl ih =>
    obtain ⟨k', v'⟩ := hd
    by_cases h : k' = k
    · simp [alistSet, h, alistFind?]
    · simp [alistSet, h, alistFind?, ih]

theorem alistFind?_set_ne {α : Type} (m : List (String × α)) (k k' : String) (v : α)
    (h : k' ≠ k) : alistFind? (alistSet m k v) k' = alistFind? m k' := by
  have hne : k ≠ k' := fun hh => h hh.symm
  induction m with
  | nil =>
    simp only [alistSet, alistFind?]
    rw [if_neg hne]
  | cons hd tl ih =>
    obtain ⟨k₀, v₀⟩ := hd
    by_cases h0 : k₀ = k
    · subst h0
      simp only [alistSet, if_pos rfl, alistFind?]
      rw [if_neg hne, if_neg hne]
    · simp only [alistSet, if_neg h0, alistFind?]
      by_cases h1 : k₀ = k'
      · rw [if_pos h1, if_pos h1]
      · rw [if_neg h1, if_neg h1, ih]

theorem alistHas_eq_true_iff {α : Type} (m : List (String × α)) (k : String) :
    alistHas m k = true ↔ ∃ v, alistFind? m k = some v := by
  unfold alistHas
  cases h : alistFind? m k <;> simp [h, Option.isSome]

theorem alistHas_eq_false_iff {α : Type} (m : List (String × α)) (k : String) :
    alistHas m k = false ↔ alistFind? m k = none := by
  unfold alistHas
  cases h : alistFind? m k <;> simp [h, Option.isSome]

theorem alistFind?_eq_none_iff_not_mem {α : Type} (m : List (String × α)) (k : String) :
    alistFind? m k = none ↔ k ∉ keysOf m := by
  induction m with
  | nil => simp [alistFind?, keysOf]
  | cons hd tl ih =>
    obtain ⟨k', v'⟩ := hd
    by_cases h : k' = k
    · simp [alistFind?, h, keysOf]
    · simp [alistFind?, h, keysOf, ih, Ne.symm h]

theorem keysOf_set_of_find?_none {α : Type} (m : List (String × α)) (k : String) (v : α)
    (h : alistFind? m k = none) : keysOf (alistSet m k v) = keysOf m ++ [k] := by
  induction m with
  | nil => simp [alistSet, keysOf]
  | cons hd tl ih =>
    obtain ⟨k', v'⟩ := hd
    by_cases h0 : k' = k
    · simp [alistFind?, h0] at h
    · simp [alistFind?, h0] at h
      simp [alistSet, h0, keysOf] at ih ⊢
      exact ih h

/-! ## Claim C5: the cooldown tracker -/

/-- Claim C5: the cooldown check returns true exactly when the command has no
cooldown configured, or no prior stamp exists for the (command, user) pair, or
the stored timestamp is at or before the current time; the remaining-time
query returns max(0, storedTimestamp - now) and zero when no entry exists; and
the set operation writes now + cooldownMillis for the (command, user) pair,
creating the per-command sub-map lazily. -/
theorem c5_cooldown_tracker :
    ∀ (cds : CooldownMap) (userId : String) (md : CommandMetadata) (now : Nat),
      (checkCooldown cds userId md now = true ↔
        (md.cooldown = 0 ∨ stampOf cds md.name userId = none ∨
          ∃ t, stampOf cds md.name userId = some t ∧ t ≤ now))
      ∧ getRemainingCooldown cds userId md now =
          (match stampOf cds md.name userId with
           | none => (0 : Int)
           | some t => max 0 ((t : Int) - (now : Int)))
      ∧ stampOf (setCooldown cds userId md now) md.name userId = some (now + md.cooldown) := by
  intro cds userId md now
  refine ⟨?_, ?_, ?_⟩
  · unfold checkCooldown stampOf
    by_cases hcd : md.cooldown ≤ 0
    · have h0 : md.cooldown = 0 := Nat.le_zero.mp hcd
      simp [hcd, h0]
    · have hcd0 : ¬ md.cooldown = 0 := by omega
      rw [if_neg hcd]
      cases h1 : alistFind? cds md.name with
      | none => simp [h1, hcd0]
      | some sub =>
        cases h2 : alistFind? sub userId with
        | none => simp [h1, h2, hcd0]
        | some t =>
          by_cases ht : t = 0
          · subst ht
            simp [h1, h2, hcd0]
          · simp [h1, h2, hcd0, ht, ge_iff_le]
  · unfold getRemainingCooldown stampOf
    cases h1 : alistFind? cds md.name with
    | none => simp [h1]
    | some sub =>
      cases h2 : alistFind? sub userId with
      | none => simp [h1, h2]
      | some t =>
        by_cases ht : t = 0
        · subst ht
          simp [h1, h2, max_eq_left (by omega : (0 : Int) - (now : Int) ≤ 0)]
        · simp [h1, h2, ht]
  · unfold setCooldown
    by_cases h : alistHas cds md.name = true
    · rw [if_pos h]
      obtain ⟨sub, hsub⟩ := (alistHas_eq_true_iff cds md.name).mp h
      simp only [hsub, stampOf, alistFind?_set_self]
    · rw [if_neg h]
      simp only [stampOf, alistFind?_set_self]

/-! ## Dispatch engine: observable effects and outcomes -/

/-- One observable effect of a dispatch. `replied` is a message on the reply
channel; `guardRan i` is the run of the i-th registered guard;
`guardFailInvoked` and `guardFailLogged` are the two outcomes of a guard
returning false; `onCooldownInvoked` and `onErrorInvoked` are the optional
command handlers; `errorLogged` is the engine diagnostic; `ranBody` is the
invocation of `instance.run`; `cooldownSet` is the tracker write. -/
inductive Event where
  | replied (text : String)
  | guardRan (idx : Nat)
  | guardFailInvoked (idx : Nat)
  | guardFailLogged (idx : Nat)
  | onCooldownInvoked (remainingMs : Int)
  | ranBody
  | onErrorInvoked (msg : String)
  | errorLogged (msg : String)
  | cooldownSet
deriving DecidableEq

/-- How `execute` ends: an ordinary boolean return, or an exception crossing
the dispatch boundary. -/
inductive DispatchResult where
  | returned (b : Bool)
  | raised (msg : String)
deriving DecidableEq

/-- The outcome of one dispatch: the result, the trace of observable effects
in order, and the cooldown map afterwards. -/
structure ExecResult where
  result : DispatchResult
  events : List Event
  cooldowns : CooldownMap
deriving DecidableEq

/-- The fixed owner-only notice sent by both `execute` variants. -/
def ownerOnlyNotice : String := "This command is owner-only."

/-- The generic error reply of the catch block. -/
def errorReplyText (msg : String) : String := "An error occurred: " ++ msg

/-- The templated cooldown reply. The numeric part of the source template,
`(remaining / 1000).toFixed(1)`, is floating-point decimal formatting; it is
represented here by the remaining-milliseconds value it is computed from,
which determines the rendered text. -/
def cooldownReplyText (remainingMs : Int) : String :=
  "Please wait " ++ toString remainingMs ++
    " ms (rendered as one-decimal seconds) before using this command again."

/-- Outcome of the guard loop of the decorator-variant `execute` (handler.ts
lines 583-597). -/
inductive GuardsOutcome where
  | passed
  | blocked
  | raised (msg : String)
deriving DecidableEq

/-- The guard loop: each guard class with a callable `run` is executed in
array order; one returning false invokes its `guardFail` when defined (else a
diagnostic is logged) and blocks; the source has no try/catch here, so a guard
that raises aborts the loop with the exception; a guard without a callable
`run` is skipped entirely. -/
def runGuards : List GuardSpec → Nat → List Event × GuardsOutcome
  | [], _ => ([], .passed)
  | g :: gs, i =>
    if g.hasRun then
      match g.runBehavior with
      | .returnsTrue =>
        let rest := runGuards gs (i + 1)
        (Event.guardRan i :: rest.1, rest.2)
      | .returnsFalse =>
        if g.hasGuardFail then
          ([Event.guardRan i, Event.guardFailInvoked i], .blocked)
        else
          ([Event.guardRan i, Event.guardFailLogged i], .blocked)
      | .raises m => ([Event.guardRan i], .raised m)
    else
      runGuards gs (i + 1)

/-- State of the decorator-variant handler relevant to `execute`: the
registry, the owner set and the cooldown map. -/
structure HandlerState where
  registry : Registry
  owners : List String
  cooldowns : CooldownMap

/-- The per-invocation context fields `execute` reads. -/
structure Ctx2 where
  commandName : String
  authorId : String
deriving DecidableEq

/-- The tail of the decorator-variant `execute` after the owner gate and the
guard loop have let the dispatch through (handler.ts lines 598-624): the
cooldown gate with the optional `onCooldown` notifier, then
`await instance.run(ctx)`. In the source the run call sits before the `try`
block, so a raising body propagates out of `execute` (modelled as
`DispatchResult.raised`) and the catch block (onError or the generic reply) is
unreachable for it; the `try` wraps only the cooldown write and `return true`,
which cannot raise. `gevs` is the trace accumulated by the guard loop. -/
def execute2Tail (st : HandlerState) (now : Nat) (ctx : Ctx2) (entry : RegEntry)
    (gevs : List Event) : ExecResult :=
  let md := entry.metadata
  if !(checkCooldown st.cooldowns ctx.authorId md now) then
    let remaining := getRemainingCooldown st.cooldowns ctx.authorId md now
    if entry.cmd.hasOnCooldown then
      ⟨.returned false, gevs ++ [Event.onCooldownInvoked remaining], st.cooldowns⟩
    else
      ⟨.returned false, gevs ++ [Event.replied (cooldownReplyText remaining)],
        st.cooldowns⟩
  else
    match entry.cmd.body with
    | .raises m => ⟨.raised m, gevs ++ [Event.ranBody], st.cooldowns⟩
    | .succeeds =>
      if 0 < md.cooldown then
        ⟨.returned true, gevs ++ [Event.ranBody, Event.cooldownSet],
          setCooldown st.cooldowns ctx.authorId md now⟩
      else
        ⟨.returned true, gevs ++ [Event.ranBody], st.cooldowns⟩

/-- Embeds the decorator-variant `MallyHandler.execute` (handler.ts lines
569-625): lookup, owner gate, guard loop, then `execute2Tail` (cooldown gate
and the command body). -/
def execute2 (st : HandlerState) (now : Nat) (ctx : Ctx2) : ExecResult :=
  match regGet st.registry ctx.commandName with
  | none => ⟨.returned false, [], st.cooldowns⟩
  | some entry =>
    let md := entry.metadata
    if md.ownerOnly && !(st.owners.contains ctx.authorId) then
      ⟨.returned false, [Event.replied ownerOnlyNotice], st.cooldowns⟩
    else
      let guardsRun := runGuards entry.cmd.guards 0
      match guardsRun.2 with
      | .raised m => ⟨.raised m, guardsRun.1, st.cooldowns⟩
      | .blocked => ⟨.returned false, guardsRun.1, st.cooldowns⟩
      | .passed => execute2Tail st now ctx entry guardsRun.1

/-! ## Adapter-variant engine (handler.ts lines 37-375) -/

/-- What one middleware does with its continuation: invoke it, skip it, or
raise. -/
inductive MwBehavior where
  | callsNext
  | skips
  | raises (msg : String)
deriving DecidableEq

/-- The right-to-left composed chain of `buildMiddlewareChain`, invoked left
to right: each middleware may call its continuation, silently not call it, or
raise; the final handler runs the command body. Returns the trace and the
raised message, if any. -/
def runChain : List MwBehavior → BodyBehavior → List Event × Option String
  | [], b =>
    match b with
    | .succeeds => ([Event.ranBody], none)
    | .raises m => ([Event.ranBody], some m)
  | mw :: rest, b =>
    match mw with
    | .callsNext => runChain rest b
    | .skips => ([], none)
    | .raises m => ([], some m)

/-- State of the adapter-variant handler: a resolved literal prefix, the owner
set, the registry, the cooldown map, the global middlewares, and whether a
message adapter was configured. -/
structure Handler1State where
  pfx : String
  owners : List String
  registry : Registry
  cooldowns : CooldownMap
  middlewares : List MwBehavior
  hasMessageAdapter : Bool

/-- Embeds the adapter-variant `MallyHandler.execute` (handler.ts lines
189-237): lookup, owner gate, cooldown gate (always the templated reply, no
`onCooldown` in this variant), then the middleware chain — the built-in
permission middleware is a documented pass-through, embedded as a leading
`callsNext` — inside try/catch; on success with a positive cooldown the
tracker is stamped; on an exception `onError` is invoked when defined, else a
diagnostic is logged and the generic reply is sent; either way false. -/
def execute1 (st : Handler1State) (now : Nat) (ctx : Ctx2) : ExecResult :=
  match regGet st.registry ctx.commandName with
  | none => ⟨.returned false, [], st.cooldowns⟩
  | some entry =>
    let md := entry.metadata
    if md.ownerOnly && !(st.owners.contains ctx.authorId) then
      ⟨.returned false, [Event.replied ownerOnlyNotice], st.cooldowns⟩
    else if !(checkCooldown st.cooldowns ctx.authorId md now) then
      let remaining := getRemainingCooldown st.cooldowns ctx.authorId md now
      ⟨.returned false, [Event.replied (cooldownReplyText remaining)], st.cooldowns⟩
    else
      let chainRun := runChain (MwBehavior.callsNext :: st.middlewares) entry.cmd.body
      match chainRun.2 with
      | none =>
        if 0 < md.cooldown then
          ⟨.returned true, chainRun.1 ++ [Event.cooldownSet],
            setCooldown st.cooldowns ctx.authorId md now⟩
        else
          ⟨.returned true, chainRun.1, st.cooldowns⟩
      | some m =>
        if entry.cmd.hasOnError then
          ⟨.returned false, chainRun.1 ++ [Event.onErrorInvoked m], st.cooldowns⟩
        else
          ⟨.returned false, chainRun.1 ++ [Event.errorLogged m,
            Event.replied (errorReplyText m)], st.cooldowns⟩

/-- Embeds the adapter-variant `parseMessage` (handler.ts lines 77-112): a
literal-prefix match only; the remainder is trimmed and split on whitespace
runs, the lowercased first token is the command name, the rest the arguments;
an empty first token means no context. -/
def parseMessage1 (pfx rawContent : String) : Option (String × List String) :=
  if List.isPrefixOf pfx.data rawContent.data then
    let withoutPfx := jsTrim (strDropChars rawContent pfx.data.length)
    match wsSplit withoutPfx with
    | [] => none
    | t :: ts => if t = "" then none else some (strToLower t, ts)
  else none

/-- The error message `handle` throws when no message adapter is configured
(handler.ts lines 125-130). -/
def adapterNotConfiguredMsg : String :=
  "MessageAdapter is not configured. Either provide a messageAdapter in options or use handleMessage() with manual metadata."

/-- The values the configured message adapter extracts from one inbound
message, plus whether the optional `shouldProcess` predicate is present and
what it returns. -/
structure AdapterMsg where
  content : String
  authorId : String
  channelId : String
  serverId : Option String
  hasShouldProcess : Bool
  shouldProcessResult : Bool
deriving DecidableEq

/-- Embeds the adapter-variant `MallyHandler.handle` (handler.ts lines
125-149): without a configured message adapter it throws; otherwise it skips
messages rejected by `shouldProcess`, parses, and executes. -/
def handle1 (st : Handler1State) (m : AdapterMsg) (now : Nat) : ExecResult :=
  if !st.hasMessageAdapter then
    ⟨.raised adapterNotConfiguredMsg, [], st.cooldowns⟩
  else if m.hasShouldProcess && !m.shouldProcessResult then
    ⟨.returned false, [], st.cooldowns⟩
  else
    match parseMessage1 st.pfx m.content with
    | none => ⟨.returned false, [], st.cooldowns⟩
    | some parsed => execute1 st now ⟨parsed.1, m.authorId⟩

/-! ## Decorator-variant parseMessage (handler.ts lines 435-492) -/

/-- A word character as matched by the `[\w]` class: ASCII letters, digits and
underscore. -/
def isWordChar (c : Char) : Bool :=
  c.isAlpha || c.isDigit || c = '_'

/-- The structure of a successful match of `/^<@!?([\w]+)>\s*/` against the
start of a message: the whole match (which greedily includes the whitespace
after the closing angle bracket), the captured id, and the remaining text. -/
structure MentionMatch where
  whole : String
  mid : String
  rest : String
deriving DecidableEq

/-- Character-level matcher for `/^<@!?([\w]+)>\s*/`; `none` when the message
does not start with a mention token. The source first tests the same token
with `/^<@!?[\w]+>/` and then rematches with the capture and `\s*`; both
succeed on exactly the same inputs, so one matcher embeds both. -/
def mentionMatchCore : List Char → Option (List Char × List Char × List Char)
  | '<' :: '@' :: r0 =>
    let bangAndRest : List Char × List Char :=
      match r0 with
      | '!' :: r => (['!'], r)
      | r => ([], r)
    let idChars := bangAndRest.2.takeWhile isWordChar
    let r2 := bangAndRest.2.dropWhile isWordChar
    if idChars.isEmpty then none
    else
      match r2 with
      | '>' :: r3 =>
        let ws := r3.takeWhile isWs
        let rest := r3.dropWhile isWs
        some ('<' :: '@' :: (bangAndRest.1 ++ idChars ++ '>' :: ws), idChars, rest)
      | _ => none
  | _ => none

/-- String-level wrapper of `mentionMatchCore`. -/
def mentionMatch (s : String) : Option MentionMatch :=
  match mentionMatchCore s.data with
  | none => none
  | some (w, i, r) => some ⟨String.mk w, String.mk i, String.mk r⟩

/-- The context produced by the decorator-variant `parseMessage`. `pfx` is the
`prefix` field of the source context (the consumed prefix). -/
structure ParsedCtx where
  content : String
  authorId : String
  channelId : String
  serverId : Option String
  args : List String
  pfx : String
  commandName : String
deriving DecidableEq

/-- The author, channel and server metadata handed to `parseMessage`. -/
structure ParseMeta where
  authorId : String
  channelId : String
  serverId : Option String
deriving DecidableEq

/-- Embeds the decorator-variant `MallyHandler.parseMessage` (handler.ts lines
435-492): first a literal-prefix match; otherwise, unless mention support is
disabled, a leading mention of the bot (the consumed prefix is then the whole
regex match, including the whitespace the `\s*` swallowed); an empty remainder
or an empty first token yields no context; the first token is lowercased into
`commandName`, the rest are the arguments. `botId` is `client.user?.id`. -/
def parseMessage2 (pfx : String) (disableMentionPfx : Bool) (botId : Option String)
    (rawContent : String) (meta : ParseMeta) : Option ParsedCtx :=
  let pair : String × String :=
    if List.isPrefixOf pfx.data rawContent.data then
      (pfx, jsTrim (strDropChars rawContent pfx.data.length))
    else if !disableMentionPfx then
      match mentionMatch rawContent with
      | some m =>
        match botId with
        | some b => if m.mid = b then (m.whole, jsTrim m.rest) else (pfx, "")
        | none => (pfx, "")
      | none => (pfx, "")
    else (pfx, "")
  if pair.2 = "" then none
  else
    match wsSplit pair.2 with
    | [] => none
    | t :: ts =>
      if t = "" then none
      else
        some ⟨rawContent, meta.authorId, meta.channelId, meta.serverId, ts, pair.1,
          strToLower t⟩

/-! ## Guard-loop and dispatch lemmas -/

/-- A guard that lets the pipeline continue: either its run is not callable
(the loop skips it) or its run returns true. -/
def guardPasses (g : GuardSpec) : Prop :=
  g.hasRun = false ∨ g.runBehavior = .returnsTrue

theorem runGuards_events_shape :
    ∀ (gs : List GuardSpec) (i : Nat) (e : Event), e ∈ (runGuards gs i).1 →
      ∃ j, i ≤ j ∧ (e = .guardRan j ∨ e = .guardFailInvoked j ∨ e = .guardFailLogged j) := by
  intro gs
  induction gs with
  | nil => intro i e h; exact absurd h (List.not_mem_nil e)
  | cons g rest ih =>
    intro i e h
    by_cases hr : g.hasRun = true
    · rcases hb : g.runBehavior with _ | _ | m
      · rw [show runGuards (g :: rest) i =
            (Event.guardRan i :: (runGuards rest (i + 1)).1, (runGuards rest (i + 1)).2) by
              simp [runGuards, hr, hb]] at h
        rcases List.mem_cons.mp h with h | h
        · exact ⟨i, le_refl i, Or.inl h⟩
        · obtain ⟨j, hij, hj⟩ := ih (i + 1) e h
          exact ⟨j, by omega, hj⟩
      · by_cases hf : g.hasGuardFail = true
        · rw [show runGuards (g :: rest) i =
              ([Event.guardRan i, Event.guardFailInvoked i], .blocked) by
                simp [runGuards, hr, hb, hf]] at h
          rcases List.mem_cons.mp h with h | h
          · exact ⟨i, le_refl i, Or.inl h⟩
          · rcases List.mem_cons.mp h with h | h
            · exact ⟨i, le_refl i, Or.inr (Or.inl h)⟩
            · exact absurd h (List.not_mem_nil e)
        · have hf' : g.hasGuardFail = false := by
            cases hb2 : g.hasGuardFail
            · rfl
            · exact absurd hb2 hf
          rw [show runGuards (g :: rest) i =
              ([Event.guardRan i, Event.guardFailLogged i], .blocked) by
                simp [runGuards, hr, hb, hf']] at h
          rcases List.mem_cons.mp h with h | h
          · exact ⟨i, le_refl i, Or.inl h⟩
          · rcases List.mem_cons.mp h with h | h
            · exact ⟨i, le_refl i, Or.inr (Or.inr h)⟩
            · exact absurd h (List.not_mem_nil e)
      · rw [show runGuards (g :: rest) i = ([Event.guardRan i], .raised m) by
            simp [runGuards, hr, hb]] at h
        rcases List.mem_cons.mp h with h | h
        · exact ⟨i, le_refl i, Or.inl h⟩
        · exact absurd h (List.not_mem_nil e)
    · have hr' : g.hasRun = false := by
        cases hb2 : g.hasRun
        · rfl
        · exact absurd hb2 hr
      rw [show runGuards (g :: rest) i = runGuards rest (i + 1) by
          simp [runGuards, hr']] at h
      obtain ⟨j, hij, hj⟩ := ih (i + 1) e h
      exact ⟨j, by omega, hj⟩

theorem ranBody_not_mem_runGuards (gs : List GuardSpec) (i : Nat) :
    Event.ranBody ∉ (runGuards gs i).1 := by
  intro h
  obtain ⟨j, _, hj⟩ := runGuards_events_shape gs i _ h
  rcases hj with hj | hj | hj <;> exact Event.noConfusion hj

theorem cooldownSet_not_mem_runGuards (gs : List GuardSpec) (i : Nat) :
    Event.cooldownSet ∉ (runGuards gs i).1 := by
  intro h
  obtain ⟨j, _, hj⟩ := runGuards_events_shape gs i _ h
  rcases hj with hj | hj | hj <;> exact Event.noConfusion hj

theorem replied_not_mem_runGuards (gs : List GuardSpec) (i : Nat) (s : String) :
    Event.replied s ∉ (runGuards gs i).1 := by
  intro h
  obtain ⟨j, _, hj⟩ := runGuards_events_shape gs i _ h
  rcases hj with hj | hj | hj <;> exact Event.noConfusion hj

/-- Bool form of having passed the owner gate. -/
theorem owner_gate_passes (mo c : Bool) (h : mo = false ∨ c = true) :
    (mo && !c) = false := by
  rcases h with h | h <;> simp [h]

theorem execute2_owner_blocked (st : HandlerState) (now : Nat) (ctx : Ctx2) (e : RegEntry)
    (hreg : regGet st.registry ctx.commandName = some e)
    (hOwn : e.metadata.ownerOnly = true)
    (hC : st.owners.contains ctx.authorId = false) :
    execute2 st now ctx =
      ⟨.returned false, [Event.replied ownerOnlyNotice], st.cooldowns⟩ := by
  have hcond : (e.metadata.ownerOnly && !(st.owners.contains ctx.authorId)) = true := by
    rw [hOwn, hC]
    rfl
  unfold execute2
  simp only [hreg, hcond, if_true]

theorem execute1_owner_blocked (st1 : Handler1State) (now : Nat) (ctx : Ctx2) (e : RegEntry)
    (hreg : regGet st1.registry ctx.commandName = some e)
    (hOwn : e.metadata.ownerOnly = true)
    (hC : st1.owners.contains ctx.authorId = false) :
    execute1 st1 now ctx =
      ⟨.returned false, [Event.replied ownerOnlyNotice], st1.cooldowns⟩ := by
  have hcond : (e.metadata.ownerOnly && !(st1.owners.contains ctx.authorId)) = true := by
    rw [hOwn, hC]
    rfl
  unfold execute1
  simp only [hreg, hcond, if_true]

theorem execute2_guard_raised (st : HandlerState) (now : Nat) (ctx : Ctx2) (e : RegEntry)
    (m : String)
    (hreg : regGet st.registry ctx.commandName = some e)
    (hOwnPass : (e.metadata.ownerOnly && !(st.owners.contains ctx.authorId)) = false)
    (hg : (runGuards e.cmd.guards 0).2 = GuardsOutcome.raised m) :
    execute2 st now ctx = ⟨.raised m, (runGuards e.cmd.guards 0).1, st.cooldowns⟩ := by
  unfold execute2
  simp only [hreg, hOwnPass, Bool.false_eq_true, if_false, hg]

theorem execute2_guard_blocked (st : HandlerState) (now : Nat) (ctx : Ctx2) (e : RegEntry)
    (hreg : regGet st.registry ctx.commandName = some e)
    (hOwnPass : (e.metadata.ownerOnly && !(st.owners.contains ctx.authorId)) = false)
    (hg : (runGuards e.cmd.guards 0).2 = GuardsOutcome.blocked) :
    execute2 st now ctx =
      ⟨.returned false, (runGuards e.cmd.guards 0).1, st.cooldowns⟩ := by
  unfold execute2
  simp only [hreg, hOwnPass, Bool.false_eq_true, if_false, hg]

theorem execute2_guards_passed (st : HandlerState) (now : Nat) (ctx : Ctx2) (e : RegEntry)
    (hreg : regGet st.registry ctx.commandName = some e)
    (hOwnPass : (e.metadata.ownerOnly && !(st.owners.contains ctx.authorId)) = false)
    (hg : (runGuards e.cmd.guards 0).2 = GuardsOutcome.passed) :
    execute2 st now ctx = execute2Tail st now ctx e (runGuards e.cmd.guards 0).1 := by
  unfold execute2
  simp only [hreg, hOwnPass, Bool.false_eq_true, if_false, hg]

theorem execute2Tail_cooldowns_eq_or_success (st : HandlerState) (now : Nat) (ctx : Ctx2)
    (e : RegEntry) (gevs : List Event) :
    (execute2Tail st now ctx e gevs).cooldowns = st.cooldowns ∨
    ((execute2Tail st now ctx e gevs).result = .returned true ∧ 0 < e.metadata.cooldown ∧
      Event.ranBody ∈ (execute2Tail st now ctx e gevs).events) := by
  unfold execute2Tail
  by_cases hcc : checkCooldown st.cooldowns ctx.authorId e.metadata now = true
  · simp only [hcc, Bool.not_true, Bool.false_eq_true, if_false]
    cases hb : e.cmd.body with
    | raises m => simp only [hb]; left; trivial
    | succeeds =>
      simp only [hb]
      by_cases hcd : 0 < e.metadata.cooldown
      · simp only [hcd, if_true]
        right
        refine ⟨by trivial, by trivial, by simp⟩
      · simp only [hcd, if_false]; left; trivial
  · have hccF : checkCooldown st.cooldowns ctx.authorId e.metadata now = false := by
      cases hb : checkCooldown st.cooldowns ctx.authorId e.metadata now
      · rfl
      · exact absurd hb hcc
    simp only [hccF, Bool.not_false, if_true]
    by_cases hoc : e.cmd.hasOnCooldown = true
    · simp only [hoc, if_true]; left; trivial
    · have hocF : e.cmd.hasOnCooldown = false := by
        cases hb : e.cmd.hasOnCooldown
        · rfl
        · exact absurd hb hoc
      simp only [hocF, Bool.false_eq_true, if_false]; left; trivial

theorem execute2_cooldowns_eq_or_success (st : HandlerState) (now : Nat) (ctx : Ctx2) :
    (execute2 st now ctx).cooldowns = st.cooldowns ∨
    ((execute2 st now ctx).result = .returned true ∧
      Event.ranBody ∈ (execute2 st now ctx).events ∧
      ∃ e, regGet st.registry ctx.commandName = some e ∧ 0 < e.metadata.cooldown) := by
  cases hreg : regGet st.registry ctx.commandName with
  | none =>
    left
    unfold execute2
    simp only [hreg]
  | some e =>
    by_cases hOwn : (e.metadata.ownerOnly && !(st.owners.contains ctx.authorId)) = true
    · left
      rw [execute2_owner_blocked st now ctx e hreg (by
          cases hmo : e.metadata.ownerOnly
          · rw [hmo] at hOwn
            exact absurd hOwn (by simp)
          · rfl)
        (by
          cases hc : st.owners.contains ctx.authorId
          · rfl
          · rw [hc] at hOwn
            simp at hOwn)]
    · have hOwnF : (e.metadata.ownerOnly && !(st.owners.contains ctx.authorId)) = false := by
        cases hb : (e.metadata.ownerOnly && !(st.owners.contains ctx.authorId))
        · rfl
        · exact absurd hb hOwn
      cases hg : (runGuards e.cmd.guards 0).2 with
      | passed =>
        rw [execute2_guards_passed st now ctx e hreg hOwnF hg]
        rcases execute2Tail_cooldowns_eq_or_success st now ctx e (runGuards e.cmd.guards 0).1
          with h | ⟨h1, h2, h3⟩
        · left; exact h
        · right; exact ⟨h1, h3, e, rfl, h2⟩
      | blocked =>
        left
        rw [execute2_guard_blocked st now ctx e hreg hOwnF hg]
      | raised m =>
        left
        rw [execute2_guard_raised st now ctx e m hreg hOwnF hg]

theorem execute2_ranBody_gates (st : HandlerState) (now : Nat) (ctx : Ctx2) (e : RegEntry)
    (hreg : regGet st.registry ctx.commandName = some e)
    (hmem : Event.ranBody ∈ (execute2 st now ctx).events) :
    (e.metadata.ownerOnly && !(st.owners.contains ctx.authorId)) = false
    ∧ (runGuards e.cmd.guards 0).2 = GuardsOutcome.passed
    ∧ checkCooldown st.cooldowns ctx.authorId e.metadata now = true := by
  by_cases hOwn : (e.metadata.ownerOnly && !(st.owners.contains ctx.authorId)) = true
  · exfalso
    have heq := execute2_owner_blocked st now ctx e hreg (by
        cases hmo : e.metadata.ownerOnly
        · rw [hmo] at hOwn
          exact absurd hOwn (by simp)
        · rfl)
      (by
        cases hc : st.owners.contains ctx.authorId
        · rfl
        · rw [hc] at hOwn
          simp at hOwn)
    rw [heq] at hmem
    simp at hmem
  · have hOwnF : (e.metadata.ownerOnly && !(st.owners.contains ctx.authorId)) = false := by
      cases hb : (e.metadata.ownerOnly && !(st.owners.contains ctx.authorId))
      · rfl
      · exact absurd hb hOwn
    refine ⟨hOwnF, ?_⟩
    cases hg : (runGuards e.cmd.guards 0).2 with
    | blocked =>
      exfalso
      rw [execute2_guard_blocked st now ctx e hreg hOwnF hg] at hmem
      exact ranBody_not_mem_runGuards _ _ hmem
    | raised m =>
      exfalso
      rw [execute2_guard_raised st now ctx e m hreg hOwnF hg] at hmem
      exact ranBody_not_mem_runGuards _ _ hmem
    | passed =>
      refine ⟨rfl, ?_⟩
      rw [execute2_guards_passed st now ctx e hreg hOwnF hg] at hmem
      by_cases hcc : checkCooldown st.cooldowns ctx.authorId e.metadata now = true
      · exact hcc
      · exfalso
        have hccF : checkCooldown st.cooldowns ctx.authorId e.metadata now = false := by
          cases hb : checkCooldown st.cooldowns ctx.authorId e.metadata now
          · rfl
          · exact absurd hb hcc
        unfold execute2Tail at hmem
        simp only [hccF, Bool.not_false, if_true] at hmem
        by_cases hoc : e.cmd.hasOnCooldown = true
        · simp only [hoc, if_true] at hmem
          rcases List.mem_append.mp hmem with h | h
          · exact ranBody_not_mem_runGuards _ _ h
          · simp at h
        · have hocF : e.cmd.hasOnCooldown = false := by
            cases hb : e.cmd.hasOnCooldown
            · rfl
            · exact absurd hb hoc
          simp only [hocF, Bool.false_eq_true, if_false] at hmem
          rcases List.mem_append.mp hmem with h | h
          · exact ranBody_not_mem_runGuards _ _ h
          · simp at h

theorem execute1_cooldowns_eq_or_success (st1 : Handler1State) (now : Nat) (ctx : Ctx2) :
    (execute1 st1 now ctx).cooldowns = st1.cooldowns ∨
    (execute1 st1 now ctx).result = .returned true := by
  unfold execute1
  cases hreg : regGet st1.registry ctx.commandName with
  | none => left; rfl
  | some e =>
    simp only [hreg]
    by_cases hOwn : (e.metadata.ownerOnly && !(st1.owners.contains ctx.authorId)) = true
    · simp only [hOwn, if_true]; left; trivial
    · have hOwnF : (e.metadata.ownerOnly && !(st1.owners.contains ctx.authorId)) = false := by
        cases hb : (e.metadata.ownerOnly && !(st1.owners.contains ctx.authorId))
        · rfl
        · exact absurd hb hOwn
      simp only [hOwnF, Bool.false_eq_true, if_false]
      by_cases hcc : checkCooldown st1.cooldowns ctx.authorId e.metadata now = true
      · simp only [hcc, Bool.not_true, Bool.false_eq_true, if_false]
        cases hch : (runChain (MwBehavior.callsNext :: st1.middlewares) e.cmd.body).2 with
        | none =>
          simp only [hch]
          by_cases hcd : 0 < e.metadata.cooldown
          · simp only [hcd, if_true]; right; trivial
          · simp only [hcd, if_false]; left; trivial
        | some m =>
          simp only [hch]
          by_cases hoe : e.cmd.hasOnError = true
          · simp only [hoe, if_true]; left; trivial
          · have hoeF : e.cmd.hasOnError = false := by
              cases hb : e.cmd.hasOnError
              · rfl
              · exact absurd hb hoe
            simp only [hoeF, Bool.false_eq_true, if_false]; left; trivial
      · have hccF : checkCooldown st1.cooldowns ctx.authorId e.metadata now = false := by
          cases hb : checkCooldown st1.cooldowns ctx.authorId e.metadata now
          · rfl
          · exact absurd hb hcc
        simp only [hccF, Bool.not_false, if_true]; left; trivial

/-! ## Guard-order lemmas for claim C4 -/

/-- The trace the guard loop emits while passing over guards that let the
pipeline continue, starting at index i. -/
def passedEvents : List GuardSpec → Nat → List Event
  | [], _ => []
  | g :: gs, i =>
    if g.hasRun then Event.guardRan i :: passedEvents gs (i + 1)
    else passedEvents gs (i + 1)

theorem passedEvents_shape :
    ∀ (pre : List GuardSpec) (i : Nat) (e : Event), e ∈ passedEvents pre i →
      ∃ j, i ≤ j ∧ j < i + pre.length ∧ e = .guardRan j := by
  intro pre
  induction pre with
  | nil => intro i e h; exact absurd h (List.not_mem_nil e)
  | cons g rest ih =>
    intro i e h
    by_cases hr : g.hasRun = true
    · rw [show passedEvents (g :: rest) i = Event.guardRan i :: passedEvents rest (i + 1) by
        simp [passedEvents, hr]] at h
      rcases List.mem_cons.mp h with h | h
      · exact ⟨i, le_refl i, by simp only [List.length_cons]; omega, h⟩
      · obtain ⟨j, h1, h2, h3⟩ := ih (i + 1) e h
        exact ⟨j, by omega, by simp only [List.length_cons]; omega, h3⟩
    · have hr' : g.hasRun = false := by
        cases hb2 : g.hasRun
        · rfl
        · exact absurd hb2 hr
      rw [show passedEvents (g :: rest) i = passedEvents rest (i + 1) by
        simp [passedEvents, hr']] at h
      obtain ⟨j, h1, h2, h3⟩ := ih (i + 1) e h
      exact ⟨j, by omega, by simp only [List.length_cons]; omega, h3⟩

theorem runGuards_append_passed :
    ∀ (pre : List GuardSpec) (i : Nat) (g : GuardSpec) (post : List GuardSpec),
      (∀ g' ∈ pre, guardPasses g') →
      runGuards (pre ++ g :: post) i =
        (passedEvents pre i ++ (runGuards (g :: post) (i + pre.length)).1,
         (runGuards (g :: post) (i + pre.length)).2) := by
  intro pre
  induction pre with
  | nil =>
    intro i g post _
    simp [passedEvents]
  | cons g0 rest ih =>
    intro i g post hp
    have hrest : ∀ g' ∈ rest, guardPasses g' := fun g' h => hp g' (List.mem_cons_of_mem _ h)
    have harith : i + 1 + rest.length = i + (rest.length + 1) := by omega
    by_cases hr : g0.hasRun = true
    · have hb : g0.runBehavior = .returnsTrue := by
        rcases hp g0 (List.mem_cons_self _ _) with h0 | h0
        · rw [h0] at hr
          exact absurd hr (by simp)
        · exact h0
      have hstep : runGuards ((g0 :: rest) ++ g :: post) i =
          (Event.guardRan i :: (runGuards (rest ++ g :: post) (i + 1)).1,
           (runGuards (rest ++ g :: post) (i + 1)).2) := by
        simp [runGuards, hr, hb]
      rw [hstep, ih (i + 1) g post hrest]
      simp [passedEvents, hr, harith]
    · have hr' : g0.hasRun = false := by
        cases hb2 : g0.hasRun
        · rfl
        · exact absurd hb2 hr
      have hstep : runGuards ((g0 :: rest) ++ g :: post) i =
          runGuards (rest ++ g :: post) (i + 1) := by
        simp [runGuards, hr']
      rw [hstep, ih (i + 1) g post hrest]
      simp [passedEvents, hr', harith]

/-- The guard indices appearing in a trace, in trace order. -/
def guardIndices (evs : List Event) : List Nat :=
  evs.filterMap fun e =>
    match e with
    | .guardRan i => some i
    | _ => none

theorem runGuards_indices_chain :
    ∀ (gs : List GuardSpec) (i : Nat),
      List.Chain' (· < ·) (guardIndices (runGuards gs i).1) ∧
      ∀ j ∈ guardIndices (runGuards gs i).1, i ≤ j := by
  intro gs
  induction gs with
  | nil =>
    intro i
    constructor
    · simp [runGuards, guardIndices]
    · simp [runGuards, guardIndices]
  | cons g rest ih =>
    intro i
    by_cases hr : g.hasRun = true
    · rcases hb : g.runBehavior with _ | _ | m
      · have hstep : runGuards (g :: rest) i =
            (Event.guardRan i :: (runGuards rest (i + 1)).1, (runGuards rest (i + 1)).2) := by
          simp [runGuards, hr, hb]
        rw [hstep]
        have hGI : guardIndices (Event.guardRan i :: (runGuards rest (i + 1)).1) =
            i :: guardIndices (runGuards rest (i + 1)).1 := by
          simp [guardIndices]
        constructor
        · dsimp only
          rw [hGI, List.chain'_cons']
          refine ⟨?_, (ih (i + 1)).1⟩
          intro y hy
          have hmem : y ∈ guardIndices (runGuards rest (i + 1)).1 :=
            List.mem_of_mem_head? hy
          have := (ih (i + 1)).2 y hmem
          omega
        · dsimp only
          rw [hGI]
          intro j hj
          rcases List.mem_cons.mp hj with h | h
          · omega
          · have := (ih (i + 1)).2 j h
            omega
      · by_cases hf : g.hasGuardFail = true
        · have hstep : runGuards (g :: rest) i =
              ([Event.guardRan i, Event.guardFailInvoked i], .blocked) := by
            simp [runGuards, hr, hb, hf]
          rw [hstep]
          constructor
          · simp [guardIndices]
          · simp [guardIndices]
        · have hf' : g.hasGuardFail = false := by
            cases hb2 : g.hasGuardFail
            · rfl
            · exact absurd hb2 hf
          have hstep : runGuards (g :: rest) i =
              ([Event.guardRan i, Event.guardFailLogged i], .blocked) := by
            simp [runGuards, hr, hb, hf']
          rw [hstep]
          constructor
          · simp [guardIndices]
          · simp [guardIndices]
      · have hstep : runGuards (g :: rest) i = ([Event.guardRan i], .raised m) := by
          simp [runGuards, hr, hb]
        rw [hstep]
        constructor
        · simp [guardIndices]
        · simp [guardIndices]
    · have hr' : g.hasRun = false := by
        cases hb2 : g.hasRun
        · rfl
        · exact absurd hb2 hr
      have hstep : runGuards (g :: rest) i = runGuards rest (i + 1) := by
        simp [runGuards, hr']
      rw [hstep]
      constructor
      · exact (ih (i + 1)).1
      · intro j hj
        have := (ih (i + 1)).2 j hj
        omega

/-- Bool form of having failed the owner gate. -/
theorem owner_gate_true (mo c : Bool) (h : (mo && !c) = true) :
    mo = true ∧ c = false := by
  cases mo <;> cases c <;> simp_all

theorem execute2_guardIndices_chain (st : HandlerState) (now : Nat) (ctx : Ctx2) :
    List.Chain' (· < ·) (guardIndices (execute2 st now ctx).events) := by
  cases hreg : regGet st.registry ctx.commandName with
  | none =>
    unfold execute2
    simp only [hreg]
    simp [guardIndices]
  | some e =>
    by_cases hOwn : (e.metadata.ownerOnly && !(st.owners.contains ctx.authorId)) = true
    · obtain ⟨h1, h2⟩ := owner_gate_true _ _ hOwn
      rw [execute2_owner_blocked st now ctx e hreg h1 h2]
      simp [guardIndices]
    · have hOwnF : (e.metadata.ownerOnly && !(st.owners.contains ctx.authorId)) = false := by
        cases hb : (e.metadata.ownerOnly && !(st.owners.contains ctx.authorId))
        · rfl
        · exact absurd hb hOwn
      cases hg : (runGuards e.cmd.guards 0).2 with
      | blocked =>
        rw [execute2_guard_blocked st now ctx e hreg hOwnF hg]
        exact (runGuards_indices_chain e.cmd.guards 0).1
      | raised m =>
        rw [execute2_guard_raised st now ctx e m hreg hOwnF hg]
        exact (runGuards_indices_chain e.cmd.guards 0).1
      | passed =>
        rw [execute2_guards_passed st now ctx e hreg hOwnF hg]
        have hchain := (runGuards_indices_chain e.cmd.guards 0).1
        unfold execute2Tail
        by_cases hcc : checkCooldown st.cooldowns ctx.authorId e.metadata now = true
        · simp only [hcc, Bool.not_true, Bool.false_eq_true, if_false]
          cases hb : e.cmd.body with
          | raises m => simpa [guardIndices, List.filterMap_append] using hchain
          | succeeds =>
            by_cases hcd : 0 < e.metadata.cooldown
            · simp only [hcd, if_true]
              simpa [guardIndices, List.filterMap_append] using hchain
            · simp only [hcd, if_false]
              simpa [guardIndices, List.filterMap_append] using hchain
        · have hccF : checkCooldown st.cooldowns ctx.authorId e.metadata now = false := by
            cases hb : checkCooldown st.cooldowns ctx.authorId e.metadata now
            · rfl
            · exact absurd hb hcc
          simp only [hccF, Bool.not_false, if_true]
          by_cases hoc : e.cmd.hasOnCooldown = true
          · simp only [hoc, if_true]
            simpa [guardIndices, List.filterMap_append] using hchain
          · have hocF : e.cmd.hasOnCooldown = false := by
              cases hb : e.cmd.hasOnCooldown
              · rfl
              · exact absurd hb hoc
            simp only [hocF, Bool.false_eq_true, if_false]
            simpa [guardIndices, List.filterMap_append] using hchain

/-! ## Trim and split lemmas for the parse claims -/

theorem dropWhile_head_false (p : Char → Bool) :
    ∀ l : List Char, l.dropWhile p = [] ∨
      ∃ c cs, l.dropWhile p = c :: cs ∧ p c = false := by
  intro l
  induction l with
  | nil => left; rfl
  | cons c cs ih =>
    by_cases h : p c = true
    · rw [List.dropWhile_cons, if_pos h]
      exact ih
    · have h' : p c = false := by
        cases hb : p c
        · rfl
        · exact absurd hb h
      right
      exact ⟨c, cs, by rw [List.dropWhile_cons, if_neg h], h'⟩

theorem jsTrim_data_head (s : String) :
    jsTrim s = "" ∨ ∃ c cs, (jsTrim s).data = c :: cs ∧ isWs c = false := by
  unfold jsTrim
  rcases dropWhile_head_false isWs s.data with h | ⟨c, cs, h, hc⟩
  · left
    rw [h]
    rfl
  · right
    rw [h]
    by_cases he : (List.dropWhile isWs (List.reverse cs)).isEmpty = true
    · refine ⟨c, [], ?_, hc⟩
      show List.reverse (List.dropWhile isWs (List.reverse (c :: cs))) = [c]
      rw [List.reverse_cons, List.dropWhile_append, if_pos he]
      rw [List.dropWhile_cons, if_neg (by simp [hc])]
      rfl
    · refine ⟨c, (List.dropWhile isWs (List.reverse cs)).reverse, ?_, hc⟩
      show List.reverse (List.dropWhile isWs (List.reverse (c :: cs))) =
        c :: (List.dropWhile isWs (List.reverse cs)).reverse
      rw [List.reverse_cons, List.dropWhile_append, if_neg he]
      rw [List.reverse_append]
      rfl

theorem wsTokensAux_ne_nil :
    ∀ (cs : List Char) (acc : List Char), acc ≠ [] → wsTokensAux acc cs ≠ [] := by
  intro cs
  induction cs with
  | nil =>
    intro acc h
    have hne : acc.isEmpty = false := by
      cases acc
      · exact absurd rfl h
      · rfl
    simp [wsTokensAux, hne]
  | cons c rest ih =>
    intro acc h
    by_cases hw : isWs c = true
    · have hne : acc.isEmpty = false := by
        cases acc
        · exact absurd rfl h
        · rfl
      simp [wsTokensAux, hw, hne]
    · have hw' : isWs c = false := by
        cases hb : isWs c
        · rfl
        · exact absurd hb hw
      rw [show wsTokensAux acc (c :: rest) = wsTokensAux (c :: acc) rest by
        simp [wsTokensAux, hw']]
      exact ih (c :: acc) (by simp)

theorem wsTokensAux_token_ne_nil :
    ∀ (cs : List Char) (acc t : List Char), t ∈ wsTokensAux acc cs → t ≠ [] := by
  intro cs
  induction cs with
  | nil =>
    intro acc t ht
    by_cases he : acc.isEmpty = true
    · rw [show wsTokensAux acc [] = [] by simp [wsTokensAux, he]] at ht
      exact absurd ht (List.not_mem_nil t)
    · have he' : acc.isEmpty = false := by
        cases hb : acc.isEmpty
        · rfl
        · exact absurd hb he
      rw [show wsTokensAux acc [] = [acc.reverse] by simp [wsTokensAux, he']] at ht
      rw [List.mem_singleton.mp ht]
      simp [List.isEmpty_iff] at he'
      simpa using he'
  | cons c rest ih =>
    intro acc t ht
    by_cases hw : isWs c = true
    · by_cases he : acc.isEmpty = true
      · rw [show wsTokensAux acc (c :: rest) = wsTokensAux [] rest by
          simp [wsTokensAux, hw, he]] at ht
        exact ih [] t ht
      · have he' : acc.isEmpty = false := by
          cases hb : acc.isEmpty
          · rfl
          · exact absurd hb he
        rw [show wsTokensAux acc (c :: rest) = acc.reverse :: wsTokensAux [] rest by
          simp [wsTokensAux, hw, he']] at ht
        rcases List.mem_cons.mp ht with h | h
        · rw [h]
          simp [List.isEmpty_iff] at he'
          simpa using he'
        · exact ih [] t h
    · have hw' : isWs c = false := by
        cases hb : isWs c
        · rfl
        · exact absurd hb hw
      rw [show wsTokensAux acc (c :: rest) = wsTokensAux (c :: acc) rest by
        simp [wsTokensAux, hw']] at ht
      exact ih (c :: acc) t ht

theorem strMk_ne_empty (l : List Char) (h : l ≠ []) : String.mk l ≠ "" := by
  intro he
  have he' : String.mk l = String.mk [] := he
  injection he' with h2
  exact h h2

theorem wsSplit_of_jsTrim_ne_empty (s : String) (h : jsTrim s ≠ "") :
    ∃ t ts, wsSplit (jsTrim s) = String.mk t :: List.map String.mk ts ∧
      String.mk t ≠ "" := by
  rcases jsTrim_data_head s with h0 | ⟨c, cs, hdata, hc⟩
  · exact absurd h0 h
  · unfold wsSplit
    rw [hdata]
    have hcons : (c :: cs).isEmpty = false := rfl
    rw [if_neg (by simp [hcons])]
    have hstep : wsTokensAux [] (c :: cs) = wsTokensAux [c] cs := by
      simp [wsTokensAux, hc]
    have hne := wsTokensAux_ne_nil cs [c] (by simp)
    rcases hlist : wsTokensAux [c] cs with _ | ⟨t0, ts0⟩
    · exact absurd hlist hne
    · refine ⟨t0, ts0, ?_, ?_⟩
      · rw [hstep, hlist]
        rfl
      · apply strMk_ne_empty
        apply wsTokensAux_token_ne_nil cs [c] t0
        rw [hlist]
        exact List.mem_cons_self t0 ts0

/-! ## Parse lemmas -/

theorem parseMessage2_prefix_success (pfx : String) (dmp : Bool) (botId : Option String)
    (raw : String) (meta : ParseMeta)
    (h1 : List.isPrefixOf pfx.data raw.data = true)
    (h2 : jsTrim (strDropChars raw pfx.data.length) ≠ "") :
    ∃ t ts, wsSplit (jsTrim (strDropChars raw pfx.data.length)) = t :: ts ∧ t ≠ "" ∧
      parseMessage2 pfx dmp botId raw meta =
        some ⟨raw, meta.authorId, meta.channelId, meta.serverId, ts, pfx, strToLower t⟩ := by
  obtain ⟨t0, ts0, hsplit, htne⟩ := wsSplit_of_jsTrim_ne_empty _ h2
  refine ⟨String.mk t0, List.map String.mk ts0, hsplit, htne, ?_⟩
  unfold parseMessage2
  simp only [h1, if_true]
  rw [if_neg h2, hsplit]
  simp [htne]

theorem parseMessage2_empty_remainder (pfx : String) (dmp : Bool) (botId : Option String)
    (raw : String) (meta : ParseMeta)
    (h1 : List.isPrefixOf pfx.data raw.data = true)
    (h2 : jsTrim (strDropChars raw pfx.data.length) = "") :
    parseMessage2 pfx dmp botId raw meta = none := by
  unfold parseMessage2
  simp only [h1, if_true]
  rw [if_pos h2]

theorem parseMessage2_no_match (pfx : String) (dmp : Bool) (botId : Option String)
    (raw : String) (meta : ParseMeta)
    (h1 : List.isPrefixOf pfx.data raw.data = false)
    (hm : mentionMatch raw = none) :
    parseMessage2 pfx dmp botId raw meta = none := by
  unfold parseMessage2
  simp only [h1, Bool.false_eq_true, if_false]
  by_cases hd : dmp = true
  · simp only [hd, Bool.not_true, Bool.false_eq_true, if_false, if_true]
  · have hd' : dmp = false := by
      cases hb : dmp
      · rfl
      · exact absurd hb hd
    simp only [hd', Bool.not_false, if_true, hm]

theorem parseMessage1_success (pfx raw : String)
    (h1 : List.isPrefixOf pfx.data raw.data = true)
    (h2 : jsTrim (strDropChars raw pfx.data.length) ≠ "") :
    ∃ t ts, wsSplit (jsTrim (strDropChars raw pfx.data.length)) = t :: ts ∧
      parseMessage1 pfx raw = some (strToLower t, ts) := by
  obtain ⟨t0, ts0, hsplit, htne⟩ := wsSplit_of_jsTrim_ne_empty _ h2
  refine ⟨String.mk t0, List.map String.mk ts0, hsplit, ?_⟩
  unfold parseMessage1
  simp only [h1, if_true]
  rw [hsplit]
  simp [htne]

theorem parseMessage2_mention_cases (pfx : String) (botId : Option String) (raw : String)
    (meta : ParseMeta) (m : MentionMatch)
    (h1 : List.isPrefixOf pfx.data raw.data = false)
    (hm : mentionMatch raw = some m) :
    (botId = some m.mid →
      (jsTrim m.rest ≠ "" →
        ∃ t ts, wsSplit (jsTrim m.rest) = t :: ts ∧ t ≠ "" ∧
          parseMessage2 pfx false botId raw meta =
            some ⟨raw, meta.authorId, meta.channelId, meta.serverId, ts, m.whole,
              strToLower t⟩)
      ∧ (jsTrim m.rest = "" → parseMessage2 pfx false botId raw meta = none))
    ∧ (∀ b, botId = some b → b ≠ m.mid → parseMessage2 pfx false botId raw meta = none)
    ∧ (botId = none → parseMessage2 pfx false botId raw meta = none) := by
  refine ⟨?_, ?_, ?_⟩
  · intro hbot
    constructor
    · intro h2
      obtain ⟨t0, ts0, hsplit, htne⟩ := wsSplit_of_jsTrim_ne_empty _ h2
      refine ⟨String.mk t0, List.map String.mk ts0, hsplit, htne, ?_⟩
      unfold parseMessage2
      simp only [h1, Bool.false_eq_true, if_false, Bool.not_false, if_true, hm, hbot]
      rw [if_neg h2, hsplit]
      simp [htne]
    · intro h2
      unfold parseMessage2
      simp only [h1, Bool.false_eq_true, if_false, Bool.not_false, if_true, hm, hbot]
      rw [if_pos h2]
  · intro b hbot hne
    unfold parseMessage2
    simp only [h1, Bool.false_eq_true, if_false, Bool.not_false, if_true, hm, hbot]
    have hmb : ¬ (m.mid = b) := fun hh => hne hh.symm
    rw [if_neg hmb]
    simp
  · intro hbot
    unfold parseMessage2
    simp only [h1, Bool.false_eq_true, if_false, Bool.not_false, if_true, hm, hbot]

/-! ## Concrete fixtures used by witnesses and counterexamples -/

/-- A plain command: body succeeds, no optional handlers, no guards. -/
def simpleCmd : CommandInstance := ⟨.succeeds, false, false, []⟩

/-- Metadata of an owner-only command. -/
def mdOwner : CommandMetadata := ⟨"own", "d", [], [], "uncategorized", 0, false, true⟩

/-- Registry holding only the owner-only command. -/
def regOwn : Registry := register emptyRegistry simpleCmd mdOwner

/-- The registered entry of the owner-only command. -/
def eOwn : RegEntry := ⟨simpleCmd, mdOwner⟩

/-- Decorator-variant handler state with owner set {boss}. -/
def stOwn2 : HandlerState := ⟨regOwn, ["boss"], ([] : CooldownMap)⟩

/-- Adapter-variant handler state with owner set {boss}. -/
def stOwn1 : Handler1State := ⟨"!", ["boss"], regOwn, ([] : CooldownMap), [], true⟩

/-- A command whose body raises "boom" and which defines `onError`. -/
def cmdBoom : CommandInstance := ⟨.raises "boom", true, false, []⟩

/-- Metadata of the raising command. -/
def mdBoom : CommandMetadata := ⟨"boom", "d", [], [], "uncategorized", 0, false, false⟩

/-- Registry holding only the raising command. -/
def regBoom : Registry := register emptyRegistry cmdBoom mdBoom

/-- Decorator-variant handler state for the raising command. -/
def stBoom : HandlerState := ⟨regBoom, [], ([] : CooldownMap)⟩

/-- Adapter-variant handler state constructed without a message adapter. -/
def st1NoAdapter : Handler1State :=
  ⟨"!", [], emptyRegistry, ([] : CooldownMap), [], false⟩

/-- An arbitrary inbound message. -/
def msg0 : AdapterMsg := ⟨"!ping", "u", "c", none, false, true⟩

/-! ## Claim C1: error containment around the command body -/

/-- Claim C1 (code bug): the claim states that an error raised by the command
body is caught at the top level of `execute`, routed to `onError` when
defined, else replied generically, with `execute` returning false. In the
decorator variant (handler.ts line 608) `await instance.run(ctx)` stands
before the `try` block, whose body only stamps the cooldown and returns true
and cannot raise, so the catch block is dead for body errors: here a command
whose body raises "boom" and which defines `onError` makes `execute` itself
raise — the trace shows the body ran, `onError` was never invoked, no reply
was sent, and no boolean was returned. -/
theorem c1_error_escapes_dispatch :
    execute2 stBoom 0 ⟨"boom", "user1"⟩ =
      ⟨DispatchResult.raised "boom", [Event.ranBody], ([] : CooldownMap)⟩ ∧
    DispatchResult.raised "boom" ≠ DispatchResult.returned false := by
  constructor
  · decide
  · decide

/-! ## Claim C3: the owner gate -/

/-- Claim C3: in both `execute` variants, a context whose resolved command is
owner-only and whose author is not in the owner set yields `returned false`,
a trace equal to exactly one owner-only reply (so the command body is never
invoked and nothing else reaches the reply channel), and an unchanged
cooldown map. -/
theorem c3_owner_gate :
    ∀ (st : HandlerState) (st1 : Handler1State) (now : Nat) (ctx : Ctx2) (e : RegEntry),
      (regGet st.registry ctx.commandName = some e →
        e.metadata.ownerOnly = true →
        st.owners.contains ctx.authorId = false →
        execute2 st now ctx =
          ⟨.returned false, [Event.replied ownerOnlyNotice], st.cooldowns⟩)
      ∧ (regGet st1.registry ctx.commandName = some e →
        e.metadata.ownerOnly = true →
        st1.owners.contains ctx.authorId = false →
        execute1 st1 now ctx =
          ⟨.returned false, [Event.replied ownerOnlyNotice], st1.cooldowns⟩) := by
  intro st st1 now ctx e
  constructor
  · intro hreg hOwn hC
    have hcond : (e.metadata.ownerOnly && !(st.owners.contains ctx.authorId)) = true := by
      rw [hOwn, hC]
      rfl
    unfold execute2
    simp only [hreg, hcond, if_true]
  · intro hreg hOwn hC
    have hcond : (e.metadata.ownerOnly && !(st1.owners.contains ctx.authorId)) = true := by
      rw [hOwn, hC]
      rfl
    unfold execute1
    simp only [hreg, hcond, if_true]

/-- Witness for C3: a concrete owner-only command dispatched by a non-owner in
both variants. -/
theorem c3_owner_gate_witness :
    execute2 stOwn2 0 ⟨"own", "mallory"⟩ =
      ⟨.returned false, [Event.replied ownerOnlyNotice], stOwn2.cooldowns⟩ ∧
    execute1 stOwn1 0 ⟨"own", "mallory"⟩ =
      ⟨.returned false, [Event.replied ownerOnlyNotice], stOwn1.cooldowns⟩ :=
  ⟨(c3_owner_gate stOwn2 stOwn1 0 ⟨"own", "mallory"⟩ eOwn).1 (by decide) (by decide)
      (by decide),
   (c3_owner_gate stOwn2 stOwn1 0 ⟨"own", "mallory"⟩ eOwn).2 (by decide) (by decide)
      (by decide)⟩

/-! ## Claim C2: gate order and the cooldown write condition -/

/-- Metadata of a command with a 5000 ms cooldown. -/
def mdCd : CommandMetadata := ⟨"cd", "d", [], [], "uncategorized", 5000, false, false⟩

/-- Registry holding only the cooldown-bearing command. -/
def regCd : Registry := register emptyRegistry simpleCmd mdCd

/-- Adapter-variant state whose single global middleware short-circuits by not
invoking its continuation. -/
def stSkip : Handler1State :=
  ⟨"!", [], regCd, ([] : CooldownMap), [MwBehavior.skips], true⟩

/-- Claim C2 counterexample: in the adapter variant, a middleware that
short-circuits makes the chain complete without raising, so `execute` reports
handled and stamps the cooldown tracker (entry now + 5000 for the (command,
user) pair) although the command body never ran — so the tracker is not
written "only after the command body completes successfully". -/
theorem c2_cooldown_without_body_counterexample :
    (execute1 stSkip 100 ⟨"cd", "u"⟩).result = .returned true ∧
    Event.ranBody ∉ (execute1 stSkip 100 ⟨"cd", "u"⟩).events ∧
    (execute1 stSkip 100 ⟨"cd", "u"⟩).cooldowns ≠ stSkip.cooldowns ∧
    stampOf (execute1 stSkip 100 ⟨"cd", "u"⟩).cooldowns "cd" "u" = some 5100 := by
  refine ⟨by decide, by decide, by decide, by decide⟩

/-- Claim C2 (amended): in the decorator variant the gates run in the fixed
order owner gate, guards, cooldown check, command body — an owner-gate
rejection produces only the owner notice and changes nothing else, a guard
rejection produces only the guard-loop trace and leaves the cooldown state
unchanged, and the body runs only once the owner gate, every guard and the
cooldown check have passed; in both variants a dispatch that does not report
handled leaves the cooldown state unchanged, and in the decorator variant the
tracker is written only when the command body completed successfully for a
command with a positive cooldown (in the adapter variant the write condition
is completion of the middleware/body pipeline without raising, which a
short-circuiting middleware also satisfies). -/
theorem c2_gate_order_and_cooldown_write :
    (∀ (st : HandlerState) (now : Nat) (ctx : Ctx2) (e : RegEntry),
      regGet st.registry ctx.commandName = some e →
        ((e.metadata.ownerOnly = true ∧ st.owners.contains ctx.authorId = false →
          execute2 st now ctx =
            ⟨.returned false, [Event.replied ownerOnlyNotice], st.cooldowns⟩)
        ∧ ((runGuards e.cmd.guards 0).2 = GuardsOutcome.blocked →
            (e.metadata.ownerOnly = false ∨ st.owners.contains ctx.authorId = true) →
            execute2 st now ctx =
              ⟨.returned false, (runGuards e.cmd.guards 0).1, st.cooldowns⟩)
        ∧ (Event.ranBody ∈ (execute2 st now ctx).events →
            (e.metadata.ownerOnly && !(st.owners.contains ctx.authorId)) = false
            ∧ (runGuards e.cmd.guards 0).2 = GuardsOutcome.passed
            ∧ checkCooldown st.cooldowns ctx.authorId e.metadata now = true)
        ∧ ((execute2 st now ctx).cooldowns ≠ st.cooldowns →
            (execute2 st now ctx).result = .returned true ∧ 0 < e.metadata.cooldown ∧
              Event.ranBody ∈ (execute2 st now ctx).events)
        ∧ ((execute2 st now ctx).result ≠ .returned true →
            (execute2 st now ctx).cooldowns = st.cooldowns)))
    ∧ (∀ (st1 : Handler1State) (now : Nat) (ctx : Ctx2),
        ((execute1 st1 now ctx).cooldowns ≠ st1.cooldowns →
          (execute1 st1 now ctx).result = .returned true)
        ∧ ((execute1 st1 now ctx).result ≠ .returned true →
          (execute1 st1 now ctx).cooldowns = st1.cooldowns)) := by
  constructor
  · intro st now ctx e hreg
    refine ⟨?_, ?_, ?_, ?_, ?_⟩
    · rintro ⟨h1, h2⟩
      exact execute2_owner_blocked st now ctx e hreg h1 h2
    · intro hg hOwnPass
      exact execute2_guard_blocked st now ctx e hreg
        (owner_gate_passes _ _ hOwnPass) hg
    · intro hmem
      exact execute2_ranBody_gates st now ctx e hreg hmem
    · intro hne
      rcases execute2_cooldowns_eq_or_success st now ctx with h | ⟨h1, h2, e', hreg', hcd⟩
      · exact absurd h hne
      · have hee : e = e' := Option.some.inj (by rw [hreg] at hreg'; exact hreg')
        subst hee
        exact ⟨h1, hcd, h2⟩
    · intro hns
      rcases execute2_cooldowns_eq_or_success st now ctx with h | ⟨h1, _, _⟩
      · exact h
      · exact absurd h1 hns
  · intro st1 now ctx
    constructor
    · intro hne
      rcases execute1_cooldowns_eq_or_success st1 now ctx with h | h
      · exact absurd h hne
      · exact h
    · intro hns
      rcases execute1_cooldowns_eq_or_success st1 now ctx with h | h
      · exact h
      · exact absurd h hns

/-- Witness for the amended C2: the raising-body dispatch of `stBoom` does not
report handled and indeed leaves the cooldown map unchanged. -/
theorem c2_gate_order_and_cooldown_write_witness :
    (execute2 stBoom 0 ⟨"boom", "user1"⟩).cooldowns = stBoom.cooldowns :=
  ((c2_gate_order_and_cooldown_write.1 stBoom 0 ⟨"boom", "user1"⟩ ⟨cmdBoom, mdBoom⟩
    (by decide)).2.2.2.2) (by decide)

/-! ## Claim C4: guard evaluation -/

/-- A guard whose run raises, and which even defines guardFail. -/
def gRaise : GuardSpec := ⟨true, .raises "guard boom", true⟩

/-- A command guarded by the raising guard. -/
def cmdGuarded : CommandInstance := ⟨.succeeds, false, false, [gRaise]⟩

/-- Metadata of the guarded command. -/
def mdGrd : CommandMetadata := ⟨"grd", "d", [], [], "uncategorized", 0, false, false⟩

/-- Registry holding only the guarded command. -/
def regGrd : Registry := register emptyRegistry cmdGuarded mdGrd

/-- Decorator-variant state for the guarded command. -/
def stGrd : HandlerState := ⟨regGrd, [], ([] : CooldownMap)⟩

/-- Claim C4 counterexample: the claim says a guard failing by raising also
leads to its guardFail handler being invoked and `execute` returning false.
The guard loop has no try/catch, so a raising guard aborts `execute` with the
exception: here the single guard raises "guard boom", the exception crosses
the dispatch boundary (`execute` does not return false), and guardFail is
never invoked although the guard defines it. -/
theorem c4_raising_guard_counterexample :
    (execute2 stGrd 0 ⟨"grd", "u"⟩).result = .raised "guard boom" ∧
    (execute2 stGrd 0 ⟨"grd", "u"⟩).result ≠ .returned false ∧
    Event.guardFailInvoked 0 ∉ (execute2 stGrd 0 ⟨"grd", "u"⟩).events := by
  refine ⟨by decide, by decide, by decide⟩

/-- Claim C4 (amended): guards are evaluated in registration order (the guard
indices in every dispatch trace are strictly increasing); when the owner gate
passes and the first non-passing guard (all guards before it skip or return
true, its own run is callable) returns false, `execute` returns false with a
trace of exactly the earlier guard runs, this guard's run, and — if the guard
defines guardFail — its invocation, otherwise a logged diagnostic; no reply
is sent, the command body never runs, no later guard runs, and the cooldown
state is unchanged; when that guard instead raises, the remaining guards and
the body are also short-circuited but the exception propagates out of
`execute` (no guardFail invocation, no false return). -/
theorem c4_guard_evaluation :
    (∀ (st : HandlerState) (now : Nat) (ctx : Ctx2),
      List.Chain' (· < ·) (guardIndices (execute2 st now ctx).events))
    ∧ (∀ (st : HandlerState) (now : Nat) (ctx : Ctx2) (e : RegEntry)
        (pre post : List GuardSpec) (g : GuardSpec),
        regGet st.registry ctx.commandName = some e →
        e.cmd.guards = pre ++ g :: post →
        (∀ g' ∈ pre, guardPasses g') →
        g.hasRun = true →
        (e.metadata.ownerOnly = false ∨ st.owners.contains ctx.authorId = true) →
        (g.runBehavior = GuardRunBehavior.returnsFalse →
          execute2 st now ctx =
            ⟨.returned false,
              passedEvents pre 0 ++ [Event.guardRan pre.length,
                if g.hasGuardFail then Event.guardFailInvoked pre.length
                else Event.guardFailLogged pre.length],
              st.cooldowns⟩
          ∧ (∀ s, Event.replied s ∉ (execute2 st now ctx).events)
          ∧ Event.ranBody ∉ (execute2 st now ctx).events
          ∧ (∀ j, pre.length < j → Event.guardRan j ∉ (execute2 st now ctx).events))
        ∧ (∀ m, g.runBehavior = GuardRunBehavior.raises m →
          execute2 st now ctx =
            ⟨.raised m, passedEvents pre 0 ++ [Event.guardRan pre.length], st.cooldowns⟩
          ∧ Event.guardFailInvoked pre.length ∉ (execute2 st now ctx).events
          ∧ Event.ranBody ∉ (execute2 st now ctx).events)) := by
  constructor
  · exact execute2_guardIndices_chain
  · intro st now ctx e pre post g hreg hsplit hpre hr hOwnPass
    have hOwnF := owner_gate_passes _ _ hOwnPass
    have happ := runGuards_append_passed pre 0 g post hpre
    have hzero : 0 + pre.length = pre.length := by omega
    rw [hzero] at happ
    constructor
    · intro hb
      by_cases hf : g.hasGuardFail = true
      · have hstep : runGuards (g :: post) pre.length =
            ([Event.guardRan pre.length, Event.guardFailInvoked pre.length],
              GuardsOutcome.blocked) := by
          simp [runGuards, hr, hb, hf]
        have happ2 := happ
        rw [hstep] at happ2
        have hg2 : (runGuards e.cmd.guards 0).2 = GuardsOutcome.blocked := by
          rw [hsplit, happ2]
        have hg1 : (runGuards e.cmd.guards 0).1 =
            passedEvents pre 0 ++
              [Event.guardRan pre.length, Event.guardFailInvoked pre.length] := by
          rw [hsplit, happ2]
        have hexec := execute2_guard_blocked st now ctx e hreg hOwnF hg2
        rw [hg1] at hexec
        refine ⟨by rw [hexec]; simp [hf], ?_, ?_, ?_⟩
        · intro s hm
          have hm' : Event.replied s ∈ passedEvents pre 0 ++
              [Event.guardRan pre.length, Event.guardFailInvoked pre.length] := by
            rw [hexec] at hm
            exact hm
          rcases List.mem_append.mp hm' with h | h
          · obtain ⟨j, _, _, hj⟩ := passedEvents_shape pre 0 _ h
            exact Event.noConfusion hj
          · simp at h
        · intro hm
          have hm' : Event.ranBody ∈ passedEvents pre 0 ++
              [Event.guardRan pre.length, Event.guardFailInvoked pre.length] := by
            rw [hexec] at hm
            exact hm
          rcases List.mem_append.mp hm' with h | h
          · obtain ⟨j, _, _, hj⟩ := passedEvents_shape pre 0 _ h
            exact Event.noConfusion hj
          · simp at h
        · intro j hj hm
          have hm' : Event.guardRan j ∈ passedEvents pre 0 ++
              [Event.guardRan pre.length, Event.guardFailInvoked pre.length] := by
            rw [hexec] at hm
            exact hm
          rcases List.mem_append.mp hm' with h | h
          · obtain ⟨j', _, hlt, hj'⟩ := passedEvents_shape pre 0 _ h
            injection hj' with hjj
            omega
          · rcases List.mem_cons.mp h with h | h
            · injection h with hjj
              omega
            · rcases List.mem_cons.mp h with h | h
              · exact Event.noConfusion h
              · exact absurd h (List.not_mem_nil _)
      · have hf' : g.hasGuardFail = false := by
          cases hb2 : g.hasGuardFail
          · rfl
          · exact absurd hb2 hf
        have hstep : runGuards (g :: post) pre.length =
            ([Event.guardRan pre.length, Event.guardFailLogged pre.length],
              GuardsOutcome.blocked) := by
          simp [runGuards, hr, hb, hf']
        have happ2 := happ
        rw [hstep] at happ2
        have hg2 : (runGuards e.cmd.guards 0).2 = GuardsOutcome.blocked := by
          rw [hsplit, happ2]
        have hg1 : (runGuards e.cmd.guards 0).1 =
            passedEvents pre 0 ++
              [Event.guardRan pre.length, Event.guardFailLogged pre.length] := by
          rw [hsplit, happ2]
        have hexec := execute2_guard_blocked st now ctx e hreg hOwnF hg2
        rw [hg1] at hexec
        refine ⟨by rw [hexec]; simp [hf'], ?_, ?_, ?_⟩
        · intro s hm
          have hm' : Event.replied s ∈ passedEvents pre 0 ++
              [Event.guardRan pre.length, Event.guardFailLogged pre.length] := by
            rw [hexec] at hm
            exact hm
          rcases List.mem_append.mp hm' with h | h
          · obtain ⟨j, _, _, hj⟩ := passedEvents_shape pre 0 _ h
            exact Event.noConfusion hj
          · simp at h
        · intro hm
          have hm' : Event.ranBody ∈ passedEvents pre 0 ++
              [Event.guardRan pre.length, Event.guardFailLogged pre.length] := by
            rw [hexec] at hm
            exact hm
          rcases List.mem_append.mp hm' with h | h
          · obtain ⟨j, _, _, hj⟩ := passedEvents_shape pre 0 _ h
            exact Event.noConfusion hj
          · simp at h
        · intro j hj hm
          have hm' : Event.guardRan j ∈ passedEvents pre 0 ++
              [Event.guardRan pre.length, Event.guardFailLogged pre.length] := by
            rw [hexec] at hm
            exact hm
          rcases List.mem_append.mp hm' with h | h
          · obtain ⟨j', _, hlt, hj'⟩ := passedEvents_shape pre 0 _ h
            injection hj' with hjj
            omega
          · rcases List.mem_cons.mp h with h | h
            · injection h with hjj
              omega
            · rcases List.mem_cons.mp h with h | h
              · exact Event.noConfusion h
              · exact absurd h (List.not_mem_nil _)
    · intro m hb
      have hstep : runGuards (g :: post) pre.length =
          ([Event.guardRan pre.length], GuardsOutcome.raised m) := by
        simp [runGuards, hr, hb]
      have happ2 := happ
      rw [hstep] at happ2
      have hg2 : (runGuards e.cmd.guards 0).2 = GuardsOutcome.raised m := by
        rw [hsplit, happ2]
      have hg1 : (runGuards e.cmd.guards 0).1 =
          passedEvents pre 0 ++ [Event.guardRan pre.length] := by
        rw [hsplit, happ2]
      have hexec := execute2_guard_raised st now ctx e m hreg hOwnF hg2
      rw [hg1] at hexec
      refine ⟨hexec, ?_, ?_⟩
      · intro hm
        have hm' : Event.guardFailInvoked pre.length ∈ passedEvents pre 0 ++
            [Event.guardRan pre.length] := by
          rw [hexec] at hm
          exact hm
        rcases List.mem_append.mp hm' with h | h
        · obtain ⟨j, _, _, hj⟩ := passedEvents_shape pre 0 _ h
          exact Event.noConfusion hj
        · rcases List.mem_cons.mp h with h | h
          · exact Event.noConfusion h
          · exact absurd h (List.not_mem_nil _)
      · intro hm
        have hm' : Event.ranBody ∈ passedEvents pre 0 ++
            [Event.guardRan pre.length] := by
          rw [hexec] at hm
          exact hm
        rcases List.mem_append.mp hm' with h | h
        · obtain ⟨j, _, _, hj⟩ := passedEvents_shape pre 0 _ h
          exact Event.noConfusion hj
        · rcases List.mem_cons.mp h with h | h
          · exact Event.noConfusion h
          · exact absurd h (List.not_mem_nil _)

/-- A guard whose run returns false and which defines guardFail. -/
def gFalse : GuardSpec := ⟨true, .returnsFalse, true⟩

/-- A command guarded by the failing guard. -/
def cmdGFalse : CommandInstance := ⟨.succeeds, false, false, [gFalse]⟩

/-- Metadata of the failing-guard command. -/
def mdGF : CommandMetadata := ⟨"gf", "d", [], [], "uncategorized", 0, false, false⟩

/-- Registry holding only the failing-guard command. -/
def regGF : Registry := register emptyRegistry cmdGFalse mdGF

/-- Decorator-variant state for the failing-guard command. -/
def stGF : HandlerState := ⟨regGF, [], ([] : CooldownMap)⟩

/-- Witness for the amended C4: the single guard returns false and its
guardFail is invoked; execute returns false with exactly that trace. -/
theorem c4_guard_evaluation_witness :
    execute2 stGF 0 ⟨"gf", "u"⟩ =
      ⟨.returned false,
        passedEvents [] 0 ++ [Event.guardRan (List.length ([] : List GuardSpec)),
          if gFalse.hasGuardFail then Event.guardFailInvoked (List.length ([] : List GuardSpec))
          else Event.guardFailLogged (List.length ([] : List GuardSpec))],
        stGF.cooldowns⟩ :=
  ((c4_guard_evaluation.2 stGF 0 ⟨"gf", "u"⟩ ⟨cmdGFalse, mdGF⟩ [] [] gFalse (by decide)
      (by decide) (fun g hg => absurd hg (List.not_mem_nil g)) (by decide)
      (Or.inl (by decide))).1 (by decide)).1

/-! ## Claim C10: handle without a configured message adapter -/

/-- Claim C10: in the adapter-based variant, `handle` on a handler constructed
without a messageAdapter raises the configuration error before any parsing
occurs — for every message and every other part of the state — and does not
return false. -/
theorem c10_handle_without_adapter :
    ∀ (st : Handler1State) (m : AdapterMsg) (now : Nat),
      st.hasMessageAdapter = false →
      handle1 st m now = ⟨.raised adapterNotConfiguredMsg, [], st.cooldowns⟩ ∧
      (handle1 st m now).result ≠ .returned false := by
  intro st m now h
  unfold handle1
  simp [h]

/-- Witness for C10: a concrete adapterless handler and message. -/
theorem c10_handle_without_adapter_witness :
    handle1 st1NoAdapter msg0 0 =
      ⟨.raised adapterNotConfiguredMsg, [], st1NoAdapter.cooldowns⟩ ∧
    (handle1 st1NoAdapter msg0 0).result ≠ .returned false :=
  c10_handle_without_adapter st1NoAdapter msg0 0 (by decide)

/-! ## Registry lemmas -/

theorem registerAliases_cons (cmds : List (String × RegEntry)) (canonical : String)
    (acc : List (String × String)) (al : String) (as : List String) :
    registerAliases cmds canonical acc (al :: as) =
      registerAliases cmds canonical
        (if alistHas acc (strToLower al) || alistHas cmds (strToLower al) then acc
         else alistSet acc (strToLower al) canonical) as := rfl

theorem registerAliases_append (cmds : List (String × RegEntry)) (canonical : String)
    (acc : List (String × String)) (l1 l2 : List String) :
    registerAliases cmds canonical acc (l1 ++ l2) =
      registerAliases cmds canonical (registerAliases cmds canonical acc l1) l2 := by
  unfold registerAliases
  rw [List.foldl_append]

theorem registerAliases_preserve_some (cmds : List (String × RegEntry)) (canonical k v : String) :
    ∀ (as : List String) (acc : List (String × String)),
      alistFind? acc k = some v →
      alistFind? (registerAliases cmds canonical acc as) k = some v := by
  intro as
  induction as with
  | nil => intro acc h; exact h
  | cons al rest ih =>
    intro acc h
    rw [registerAliases_cons]
    by_cases hc : (alistHas acc (strToLower al) || alistHas cmds (strToLower al)) = true
    · rw [if_pos hc]
      exact ih acc h
    · rw [if_neg hc]
      apply ih
      by_cases hk : strToLower al = k
      · exfalso
        have hhas : alistHas acc k = true := (alistHas_eq_true_iff acc k).mpr ⟨v, h⟩
        rw [hk] at hc
        simp [hhas] at hc
      · rw [alistFind?_set_ne acc (strToLower al) k canonical (fun hh => hk hh.symm)]
        exact h

theorem registerAliases_preserve_none (cmds : List (String × RegEntry)) (canonical k : String) :
    ∀ (as : List String) (acc : List (String × String)),
      alistFind? acc k = none →
      (∀ b ∈ as, strToLower b ≠ k) →
      alistFind? (registerAliases cmds canonical acc as) k = none := by
  intro as
  induction as with
  | nil => intro acc h _; exact h
  | cons al rest ih =>
    intro acc h hb
    rw [registerAliases_cons]
    by_cases hc : (alistHas acc (strToLower al) || alistHas cmds (strToLower al)) = true
    · rw [if_pos hc]
      exact ih acc h (fun b hbm => hb b (List.mem_cons_of_mem _ hbm))
    · rw [if_neg hc]
      apply ih
      · rw [alistFind?_set_ne acc (strToLower al) k canonical
          (hb al (List.mem_cons_self al rest)).symm]
        exact h
      · exact fun b hbm => hb b (List.mem_cons_of_mem _ hbm)

theorem registerAliases_keys_nodup (cmds : List (String × RegEntry)) (canonical : String) :
    ∀ (as : List String) (acc : List (String × String)),
      (keysOf acc).Nodup → (keysOf (registerAliases cmds canonical acc as)).Nodup := by
  intro as
  induction as with
  | nil => intro acc h; exact h
  | cons al rest ih =>
    intro acc h
    rw [registerAliases_cons]
    by_cases hc : (alistHas acc (strToLower al) || alistHas cmds (strToLower al)) = true
    · rw [if_pos hc]
      exact ih acc h
    · rw [if_neg hc]
      apply ih
      have hc' : alistHas acc (strToLower al) = false := by
        rw [Bool.not_eq_true, Bool.or_eq_false_iff] at hc
        exact hc.1
      have hnone : alistFind? acc (strToLower al) = none :=
        (alistHas_eq_false_iff _ _).mp hc'
      have hnotmem : strToLower al ∉ keysOf acc :=
        (alistFind?_eq_none_iff_not_mem _ _).mp hnone
      rw [keysOf_set_of_find?_none _ _ _ hnone]
      exact List.Nodup.append h (List.nodup_singleton _)
        (fun x hx hy => hnotmem (by rwa [List.mem_singleton.mp hy] at hx))

theorem register_name_collision_noop (r : Registry) (inst : CommandInstance)
    (md : CommandMetadata) (h : alistHas r.commands (strToLower md.name) = true) :
    register r inst md = r := by
  simp only [register]
  rw [if_pos h]

theorem register_of_not_has (r : Registry) (inst : CommandInstance) (md : CommandMetadata)
    (h : alistHas r.commands (strToLower md.name) = false) :
    register r inst md =
      ⟨alistSet r.commands (strToLower md.name) ⟨inst, md⟩,
        registerAliases (alistSet r.commands (strToLower md.name) ⟨inst, md⟩)
          (strToLower md.name) r.aliases md.aliases⟩ := by
  simp only [register]
  rw [if_neg (by simp [h])]

theorem register_alias_inserted (r : Registry) (inst : CommandInstance) (md : CommandMetadata)
    (pre post : List String) (al : String)
    (hsplit : md.aliases = pre ++ al :: post)
    (hname : alistHas r.commands (strToLower md.name) = false)
    (halias : alistHas r.aliases (strToLower al) = false)
    (hcmd : alistHas r.commands (strToLower al) = false)
    (hne : strToLower al ≠ strToLower md.name)
    (hpre : ∀ b ∈ pre, strToLower b ≠ strToLower al) :
    alistFind? (register r inst md).aliases (strToLower al) = some (strToLower md.name) := by
  rw [register_of_not_has r inst md hname]
  dsimp only
  rw [hsplit, registerAliases_append, registerAliases_cons]
  have hacc1 : alistFind?
      (registerAliases (alistSet r.commands (strToLower md.name) ⟨inst, md⟩)
        (strToLower md.name) r.aliases pre) (strToLower al) = none :=
    registerAliases_preserve_none _ _ _ pre r.aliases
      ((alistHas_eq_false_iff _ _).mp halias) hpre
  have hcmds : alistFind? (alistSet r.commands (strToLower md.name) ⟨inst, md⟩)
      (strToLower al) = none := by
    rw [alistFind?_set_ne r.commands (strToLower md.name) (strToLower al) ⟨inst, md⟩ hne]
    exact (alistHas_eq_false_iff _ _).mp hcmd
  have hcond : (alistHas
      (registerAliases (alistSet r.commands (strToLower md.name) ⟨inst, md⟩)
        (strToLower md.name) r.aliases pre) (strToLower al)
      || alistHas (alistSet r.commands (strToLower md.name) ⟨inst, md⟩) (strToLower al))
        = false := by
    rw [(alistHas_eq_false_iff _ _).mpr hacc1, (alistHas_eq_false_iff _ _).mpr hcmds]
    rfl
  rw [if_neg (by simp [hcond])]
  exact registerAliases_preserve_some _ _ _ _ post _ (alistFind?_set_self _ _ _)

/-- The two key invariants preserved over the registry lifecycle. -/
def regKeysNodup (r : Registry) : Prop :=
  (keysOf r.commands).Nodup ∧ (keysOf r.aliases).Nodup

theorem register_keys_nodup (r : Registry) (inst : CommandInstance) (md : CommandMetadata)
    (h : regKeysNodup r) : regKeysNodup (register r inst md) := by
  by_cases hh : alistHas r.commands (strToLower md.name) = true
  · rw [register_name_collision_noop r inst md hh]
    exact h
  · have hf : alistHas r.commands (strToLower md.name) = false := by
      cases hb : alistHas r.commands (strToLower md.name)
      · rfl
      · exact absurd hb hh
    rw [register_of_not_has r inst md hf]
    have hnone : alistFind? r.commands (strToLower md.name) = none :=
      (alistHas_eq_false_iff _ _).mp hf
    constructor
    · dsimp only
      rw [keysOf_set_of_find?_none _ _ _ hnone]
      exact List.Nodup.append h.1 (List.nodup_singleton _)
        (fun x hx hy =>
          ((alistFind?_eq_none_iff_not_mem _ _).mp hnone)
            (by rwa [List.mem_singleton.mp hy] at hx))
    · dsimp only
      exact registerAliases_keys_nodup _ _ md.aliases r.aliases h.2

theorem applyOp_keys_nodup (r : Registry) (op : RegOp) (h : regKeysNodup r) :
    regKeysNodup (applyOp r op) := by
  cases op with
  | reg inst md => exact register_keys_nodup r inst md h
  | clear => exact ⟨List.nodup_nil, List.nodup_nil⟩

theorem applyOps_keys_nodup (ops : List RegOp) : regKeysNodup (applyOps ops) := by
  unfold applyOps
  have hgen : ∀ (l : List RegOp) (r : Registry),
      regKeysNodup r → regKeysNodup (l.foldl applyOp r) := by
    intro l
    induction l with
    | nil => intro r h; exact h
    | cons op rest ih => intro r h; exact ih _ (applyOp_keys_nodup r op h)
  exact hgen ops emptyRegistry ⟨List.nodup_nil, List.nodup_nil⟩

/-! ## Claims C6 and C7: registry lookup and registration invariants -/

/-- Metadata of a command named "a" with alias "b". -/
def mdAliasB : CommandMetadata := ⟨"a", "d", ["b"], [], "uncategorized", 0, false, false⟩

/-- Metadata of a command named "b". -/
def mdNameB : CommandMetadata := ⟨"b", "d", [], [], "uncategorized", 0, false, false⟩

/-- Registry built by registering first ("a" with alias "b"), then ("b"). The
name-collision check of `register` consults only the commands map, so the
second registration succeeds although "b" is already an alias key. -/
def regShadow : Registry :=
  register (register emptyRegistry simpleCmd mdAliasB) simpleCmd mdNameB

/-- Claim C6 counterexample: in `regShadow` the command named "b" is
registered, yet `get "b"` resolves through the pre-existing alias key "b" to
the command named "a" — a registered command whose `get`-by-name returns a
different entry, contradicting the claim that `get` on a registered command's
name returns that command's entry. -/
theorem c6_get_shadowed_counterexample :
    alistFind? regShadow.commands "b" = some ⟨simpleCmd, mdNameB⟩ ∧
    regGet regShadow "b" = some ⟨simpleCmd, mdAliasB⟩ ∧
    (⟨simpleCmd, mdAliasB⟩ : RegEntry) ≠ ⟨simpleCmd, mdNameB⟩ := by
  refine ⟨by decide, by decide, by decide⟩

/-- Claim C6 (amended): `get` on any letter case of a canonical name that no
alias key shadows returns that entry; `get` on any letter case of an alias
key actually present in the alias map returns the entry of its canonical
name, hence the same entry as `get` on that name; and `get` on a string that
is neither a canonical name nor an alias key returns nothing. -/
theorem c6_get_resolution :
    ∀ (r : Registry) (s n a : String) (e : RegEntry),
      (strToLower s = n → alistFind? r.aliases n = none →
        alistFind? r.commands n = some e → regGet r s = some e)
      ∧ (strToLower s = a → alistFind? r.aliases a = some n →
        alistFind? r.commands n = some e → regGet r s = some e)
      ∧ (alistFind? r.aliases (strToLower s) = none →
        alistFind? r.commands (strToLower s) = none → regGet r s = none) := by
  intro r s n a e
  refine ⟨?_, ?_, ?_⟩
  · intro hs h1 h2
    simp only [regGet]
    rw [hs, h1]
    simpa using h2
  · intro hs h1 h2
    simp only [regGet]
    rw [hs, h1]
    simpa using h2
  · intro h1 h2
    simp only [regGet]
    rw [h1]
    simpa using h2

/-- Metadata of a command named "ping" with alias "p". -/
def mdPing : CommandMetadata := ⟨"ping", "d", ["p"], [], "uncategorized", 0, false, false⟩

/-- Registry holding only the ping command. -/
def regPing : Registry := register emptyRegistry simpleCmd mdPing

/-- Witness for the amended C6: name lookup in any case, alias lookup, and a
miss, on a concrete one-command registry. -/
theorem c6_get_resolution_witness :
    regGet regPing "PING" = some ⟨simpleCmd, mdPing⟩ ∧
    regGet regPing "P" = some ⟨simpleCmd, mdPing⟩ ∧
    regGet regPing "nope" = none :=
  ⟨(c6_get_resolution regPing "PING" "ping" "p" ⟨simpleCmd, mdPing⟩).1 (by decide)
      (by decide) (by decide),
   (c6_get_resolution regPing "P" "ping" "p" ⟨simpleCmd, mdPing⟩).2.1 (by decide)
      (by decide) (by decide),
   (c6_get_resolution regPing "nope" "ping" "p" ⟨simpleCmd, mdPing⟩).2.2 (by decide)
      (by decide)⟩

/-- Claim C7 counterexample: after the register sequence of `regShadow`, "b"
is simultaneously an alias key (mapping to "a") and a canonical name, so
lowercase canonical names and alias keys are not pairwise non-colliding. -/
theorem c7_collision_counterexample :
    alistFind? regShadow.aliases "b" = some "a" ∧
    alistHas regShadow.commands "b" = true := by
  refine ⟨by decide, by decide⟩

/-- Claim C7 (amended): registering a command whose lowercased name is already
a canonical name leaves the registry completely unchanged; an alias whose
lowercase form does not collide with any existing alias key, any command key
(including the name just inserted) or an earlier alias of the same
registration is inserted even when other aliases of that registration
collide; and after every sequence of register and clear operations the
canonical names are pairwise distinct and the alias keys are pairwise
distinct — but a canonical name may equal a previously inserted alias key,
because the name-collision check consults only the commands map. -/
theorem c7_registration_invariants :
    (∀ (r : Registry) (inst : CommandInstance) (md : CommandMetadata),
        alistHas r.commands (strToLower md.name) = true → register r inst md = r)
    ∧ (∀ (r : Registry) (inst : CommandInstance) (md : CommandMetadata)
          (pre post : List String) (al : String),
        md.aliases = pre ++ al :: post →
        alistHas r.commands (strToLower md.name) = false →
        alistHas r.aliases (strToLower al) = false →
        alistHas r.commands (strToLower al) = false →
        strToLower al ≠ strToLower md.name →
        (∀ b ∈ pre, strToLower b ≠ strToLower al) →
        alistFind? (register r inst md).aliases (strToLower al) =
          some (strToLower md.name))
    ∧ (∀ ops : List RegOp,
        (keysOf (applyOps ops).commands).Nodup ∧ (keysOf (applyOps ops).aliases).Nodup) :=
  ⟨register_name_collision_noop,
   register_alias_inserted,
   applyOps_keys_nodup⟩

/-- Metadata colliding case-insensitively with the registered "ping". -/
def mdPingDup : CommandMetadata := ⟨"Ping", "other", [], [], "misc", 0, false, false⟩

/-- Witness for the amended C7: re-registering "Ping" over the existing "ping"
is a no-op. -/
theorem c7_registration_invariants_witness :
    register regPing simpleCmd mdPingDup = regPing :=
  c7_registration_invariants.1 regPing simpleCmd mdPingDup (by decide)

/-! ## Claims C8 and C9: message parsing -/

/-- Arbitrary fixed parse metadata. -/
def meta0 : ParseMeta := ⟨"u", "c", none⟩

/-- Claim C8: on a successful parse the remainder after the consumed prefix is
split on whitespace runs, the lowercased first token is the command name and
the remaining tokens, in order, are the arguments ("!ping" gives "ping" with
no arguments, "!ban 123 spam" gives "ban" with ["123", "spam"]); when neither
the literal prefix nor a bot mention matches, or the trimmed remainder after
the consumed prefix is empty, no context is produced; the adapter-variant
parseMessage tokenizes the same way on its literal-prefix path. -/
theorem c8_parse_tokenization :
    (parseMessage2 "!" false none "!ping" meta0 =
      some ⟨"!ping", "u", "c", none, [], "!", "ping"⟩)
    ∧ (parseMessage2 "!" false none "!ban 123 spam" meta0 =
      some ⟨"!ban 123 spam", "u", "c", none, ["123", "spam"], "!", "ban"⟩)
    ∧ (parseMessage2 "!" false (some "bot1") "hello" meta0 = none)
    ∧ (∀ (pfx : String) (dmp : Bool) (botId : Option String) (raw : String)
        (meta : ParseMeta),
        List.isPrefixOf pfx.data raw.data = true →
        jsTrim (strDropChars raw pfx.data.length) ≠ "" →
        ∃ t ts, wsSplit (jsTrim (strDropChars raw pfx.data.length)) = t :: ts ∧ t ≠ "" ∧
          parseMessage2 pfx dmp botId raw meta =
            some ⟨raw, meta.authorId, meta.channelId, meta.serverId, ts, pfx, strToLower t⟩)
    ∧ (∀ (pfx : String) (dmp : Bool) (botId : Option String) (raw : String)
        (meta : ParseMeta),
        List.isPrefixOf pfx.data raw.data = true →
        jsTrim (strDropChars raw pfx.data.length) = "" →
        parseMessage2 pfx dmp botId raw meta = none)
    ∧ (∀ (pfx : String) (dmp : Bool) (botId : Option String) (raw : String)
        (meta : ParseMeta),
        List.isPrefixOf pfx.data raw.data = false →
        mentionMatch raw = none →
        parseMessage2 pfx dmp botId raw meta = none)
    ∧ (∀ (pfx raw : String),
        List.isPrefixOf pfx.data raw.data = true →
        jsTrim (strDropChars raw pfx.data.length) ≠ "" →
        ∃ t ts, wsSplit (jsTrim (strDropChars raw pfx.data.length)) = t :: ts ∧
          parseMessage1 pfx raw = some (strToLower t, ts)) :=
  ⟨by decide, by decide, by decide,
   parseMessage2_prefix_success, parseMessage2_empty_remainder, parseMessage2_no_match,
   parseMessage1_success⟩

/-- Witness for C8: a prefix-matching message whose remainder trims to
nothing produces no context. -/
theorem c8_parse_tokenization_witness :
    parseMessage2 "!" false none "!  " meta0 = none :=
  c8_parse_tokenization.2.2.2.2.1 "!" false none "!  " meta0 (by decide) (by decide)

/-- Claim C9 counterexample: the regex the source matches the mention with is
`/^<@!?([\w]+)>\s*/`, whose whole match greedily includes the whitespace after
the closing angle bracket, and `usedPrefix` is set to that whole match: for
"<@bot1> ping" the recorded consumed prefix is "<@bot1> " (with the trailing
space), not the mention token "<@bot1>" the claim states. -/
theorem c9_mention_token_counterexample :
    parseMessage2 "!" false (some "bot1") "<@bot1> ping" meta0 =
      some ⟨"<@bot1> ping", "u", "c", none, [], "<@bot1> ", "ping"⟩ ∧
    ("<@bot1> " : String) ≠ "<@bot1>" := by
  refine ⟨by decide, by decide⟩

/-- Claim C9 (amended): for content that does not start with the literal
prefix, when mention support is enabled and the content starts with a mention
token <@id> or <@!id>, then if the id equals the bot id the consumed prefix is
the whole regex match — the mention token together with the whitespace
immediately following it — and the remainder is the trimmed text after it
(tokenized as usual; an empty remainder yields no context); if the mentioned
id differs from the bot id, or the bot identity is unknown, no context is
produced. -/
theorem c9_mention_resolution :
    ∀ (pfx : String) (botId : Option String) (raw : String) (meta : ParseMeta)
      (m : MentionMatch),
      List.isPrefixOf pfx.data raw.data = false →
      mentionMatch raw = some m →
      ((botId = some m.mid →
        (jsTrim m.rest ≠ "" →
          ∃ t ts, wsSplit (jsTrim m.rest) = t :: ts ∧ t ≠ "" ∧
            parseMessage2 pfx false botId raw meta =
              some ⟨raw, meta.authorId, meta.channelId, meta.serverId, ts, m.whole,
                strToLower t⟩)
        ∧ (jsTrim m.rest = "" → parseMessage2 pfx false botId raw meta = none))
      ∧ (∀ b, botId = some b → b ≠ m.mid → parseMessage2 pfx false botId raw meta = none)
      ∧ (botId = none → parseMessage2 pfx false botId raw meta = none)) :=
  fun pfx botId raw meta m h1 hm => parseMessage2_mention_cases pfx botId raw meta m h1 hm

/-- Witness for the amended C9: a <@!id>-form mention of the bot followed by
"ping x". -/
theorem c9_mention_resolution_witness :
    ∃ t ts, wsSplit (jsTrim "ping x") = t :: ts ∧ t ≠ "" ∧
      parseMessage2 "!" false (some "bot1") "<@!bot1> ping x" meta0 =
        some ⟨"<@!bot1> ping x", "u", "c", none, ts, "<@!bot1> ", strToLower t⟩ :=
  ((c9_mention_resolution "!" (some "bot1") "<@!bot1> ping x" meta0
    ⟨"<@!bot1> ", "bot1", "ping x"⟩ (by decide) (by decide)).1 (by decide)).1 (by decide)

end Mally
